import Mathlib

/-!
Verification of the PDF interactive-form engine: geometry validator
(pdf_validate_boxes.py), overlay coordinate transform
(pdf_fill_annotations.py), field schema extractor (pdf_extract_fields.py)
and native form filler (pdf_fill_form.py), embedded shallowly in Lean.
Numbers are modelled as rationals, JSON records as structures, Python
dicts as association lists with insert-or-replace semantics, and printed
messages as inductive message values carrying the same data the source
interpolates into its strings.
-/

/-- A four-element number list [a, b, c, d]; field `iK` is index K.
Used both for image-space boxes [left, top, right, bottom] and for
page-space rects [left, bottom, right, top]. -/
structure Rect4 where
  i0 : ℚ
  i1 : ℚ
  i2 : ℚ
  i3 : ℚ
deriving DecidableEq, Repr

/-- From pdf_validate_boxes.py, rects_intersect: two rectangles
[left, top, right, bottom] intersect unless they are disjoint
horizontally or vertically (boundary exclusive). -/
def rects_intersect (r1 r2 : Rect4) : Bool :=
  let disjoint_horizontal := decide (r1.i0 ≥ r2.i2) || decide (r1.i2 ≤ r2.i0)
  let disjoint_vertical := decide (r1.i1 ≥ r2.i3) || decide (r1.i3 ≤ r2.i1)
  !(disjoint_horizontal || disjoint_vertical)

/-- From pdf_fill_annotations.py, transform_coordinates: maps a box
[left, top, right, bottom] in image coordinates (origin top-left, y
down) to (left, bottom, right, top) in PDF page coordinates (origin
bottom-left, y up). -/
def transform_coordinates (bbox : Rect4)
    (image_width image_height pdf_width pdf_height : ℚ) : ℚ × ℚ × ℚ × ℚ :=
  let x_scale := pdf_width / image_width
  let y_scale := pdf_height / image_height
  let left := bbox.i0 * x_scale
  let right := bbox.i2 * x_scale
  let top := pdf_height - bbox.i1 * y_scale
  let bottom := pdf_height - bbox.i3 * y_scale
  (left, bottom, right, top)

/-! Embedding of get_bounding_box_messages (pdf_validate_boxes.py).
Messages are modelled as an inductive type carrying the data the source
interpolates into each printed string. The source's early return on
reaching 20 accumulated messages is modelled with an `aborted` flag:
once set, no further message is appended, which yields the same final
message list as the early return. -/

/-- The optional entry_text object of a form field record; font_size
falls back to 14 when absent (dict .get default in the source). -/
structure EntryText where
  font_size : Option ℚ
deriving DecidableEq, Repr

/-- One form_fields record of the fields.json input. -/
structure BBField where
  page_number : Int
  description : String
  label_bounding_box : Rect4
  entry_bounding_box : Rect4
  entry_text : Option EntryText
deriving DecidableEq, Repr

/-- The RectAndField dataclass; fieldIdx identifies the owning field
record so that Python object identity (ri.field is rj.field) is the
equality of indices. -/
structure RectAndField where
  rect : Rect4
  rect_type : String
  fieldIdx : Nat
  field : BBField
deriving DecidableEq, Repr

/-- Validation messages, one constructor per print-format in the source:
the Read-N-fields header, the two FAILURE intersection messages, the
FAILURE height message, the aborting notice, and the SUCCESS footer. -/
inductive VMsg where
  | readFields (n : Nat)
  | sameFieldOverlap (description : String) (r1 r2 : Rect4)
  | crossOverlap (t1 d1 : String) (r1 : Rect4) (t2 d2 : String) (r2 : Rect4)
  | tooShort (height : ℚ) (description : String) (font_size : ℚ)
  | aborting
  | success
deriving DecidableEq, Repr

/-- FAILURE-prefixed messages. -/
def VMsg.isFailure : VMsg → Bool
  | .sameFieldOverlap _ _ _ => true
  | .crossOverlap _ _ _ _ _ _ => true
  | .tooShort _ _ _ => true
  | _ => false

/-- The body of the inner j-loop: the failure message (if any) for one
ordered pair of rectangles. -/
def pairEvent (ri rj : RectAndField) : Option VMsg :=
  if ri.field.page_number = rj.field.page_number ∧ rects_intersect ri.rect rj.rect = true then
    if ri.fieldIdx = rj.fieldIdx then
      some (.sameFieldOverlap ri.field.description ri.rect rj.rect)
    else
      some (.crossOverlap ri.rect_type ri.field.description ri.rect
        rj.rect_type rj.field.description rj.rect)
  else none

/-- The height check run for rectangle ri at the end of each i-loop
iteration: entry boxes with entry_text metadata whose height
(rect[3] - rect[1], bottom minus top in image space) is below the
configured font size (default 14) are flagged. -/
def heightEvent (ri : RectAndField) : Option VMsg :=
  if ri.rect_type = "entry" then
    match ri.field.entry_text with
    | some et =>
      if ri.rect.i3 - ri.rect.i1 < et.font_size.getD 14 then
        some (.tooShort (ri.rect.i3 - ri.rect.i1) ri.field.description
          (et.font_size.getD 14))
      else none
    | none => none
  else none

/-- All potential failure messages in the order the nested loops of the
source generate them: for each i, the pair checks against every later j,
then the height check for i. -/
def allEvents : List RectAndField → List VMsg
  | [] => []
  | ri :: rest =>
      rest.filterMap (pairEvent ri) ++ (heightEvent ri).toList ++ allEvents rest

/-- rects_and_fields: label then entry rectangle for each field, in
field order. -/
def toRectAndFields (fields : List BBField) : List RectAndField :=
  (fields.enum).flatMap fun p =>
    [⟨p.2.label_bounding_box, "label", p.1, p.2⟩,
     ⟨p.2.entry_bounding_box, "entry", p.1, p.2⟩]

/-- Loop state: the accumulated messages, the has_error flag, and
whether the early return has fired. -/
structure VState where
  messages : List VMsg
  hasError : Bool
  aborted : Bool
deriving DecidableEq, Repr

/-- Append one FAILURE message, set has_error, and fire the early
return (appending the aborting notice) when the message count reaches
20; once aborted, nothing more is appended. -/
def addFailure (st : VState) (m : VMsg) : VState :=
  if st.aborted then st
  else
    let msgs := st.messages ++ [m]
    if 20 ≤ msgs.length then
      ⟨msgs ++ [.aborting], true, true⟩
    else ⟨msgs, true, false⟩

/-- get_bounding_box_messages: header, then the bounded failure
accumulation, then the SUCCESS footer when no error was found. -/
def get_bounding_box_messages (fields : List BBField) : List VMsg :=
  let rfs := toRectAndFields fields
  let st := (allEvents rfs).foldl addFailure ⟨[.readFields fields.length], false, false⟩
  if st.hasError then st.messages else st.messages ++ [.success]

/-- A 13-field input whose first 25 rectangles (12 label/entry pairs
plus the last field's label) are all the same box on one page, giving 25
mutually overlapping boxes; the last entry box is far away. -/
def overlapExample : List BBField :=
  List.replicate 12 ⟨1, "f", ⟨0, 0, 10, 10⟩, ⟨0, 0, 10, 10⟩, none⟩ ++
    [⟨1, "f", ⟨0, 0, 10, 10⟩, ⟨100, 100, 110, 110⟩, none⟩]

/-- Invariant of the message-accumulation loop: while not aborted the
list is the header plus at most 18 failures and holds no aborting
notice; once aborted it has exactly 21 messages (header, 19 failures,
aborting notice last) and the error flag is set. -/
def VInv (st : VState) : Prop :=
  (st.aborted = false →
    st.messages.length = 1 + (st.messages.filter VMsg.isFailure).length ∧
    st.messages.length ≤ 19 ∧ VMsg.aborting ∉ st.messages) ∧
  (st.aborted = true →
    st.messages.length = 21 ∧ (st.messages.filter VMsg.isFailure).length = 19 ∧
    st.messages.getLast? = some VMsg.aborting ∧ st.hasError = true)

/-! Embedding of pdf_extract_fields.py. A field record models one entry
of PdfReader.get_fields(); its untyped /_States_ list is given as a
typed view: btnStates holds the state-name strings a button field
carries, chStates the (value, text) pairs a choice field carries. An
Annot models one page-level object: chain lists the /T entry of the
object and then of each ancestor along /Parent links (leaf to root),
apOn lists the keys of its /AP /N appearance dictionary (none when that
lookup raises KeyError), and rect is its optional /Rect. Python dicts
keyed by field id are association lists updated with insert-or-replace,
preserving insertion order exactly as Python dicts do. -/

/-- One record of reader.get_fields(): /FT subtype marker, whether /Kids
is nonempty, and the /_States_ payload (typed per field type). -/
structure FieldRec where
  ft : Option String
  hasKids : Bool
  btnStates : List String
  chStates : List (String × String)
deriving DecidableEq, Repr

/-- A field info dictionary as built by make_field_dict and then
augmented with page/rect during the page scan; absent dict keys are
none. -/
structure FieldInfo where
  field_id : String
  ftype : String
  checked_value : Option String := none
  unchecked_value : Option String := none
  choice_options : Option (List (String × String)) := none
  radio_options : Option (List (String × Option Rect4)) := none
  page : Option Nat := none
  rect : Option Rect4 := none
deriving DecidableEq, Repr

/-- make_field_dict: classify a field by /FT and read its type-specific
payload. The Bool is true when the unconventional-checkbox-states
warning is printed. -/
def make_field_dict (field : FieldRec) (field_id : String) : FieldInfo × Bool :=
  match field.ft with
  | some "/Tx" => ({ field_id := field_id, ftype := "text" }, false)
  | some "/Btn" =>
    match field.btnStates with
    | [s1, s2] =>
      if s1 = "/Off" ∨ s2 = "/Off" then
        ({ field_id := field_id, ftype := "checkbox",
           checked_value := some (if s1 ≠ "/Off" then s1 else s2),
           unchecked_value := some "/Off" }, false)
      else
        ({ field_id := field_id, ftype := "checkbox",
           checked_value := some s1, unchecked_value := some s2 }, true)
    | _ => ({ field_id := field_id, ftype := "checkbox" }, false)
  | some "/Ch" =>
    ({ field_id := field_id, ftype := "choice",
       choice_options := some field.chStates }, false)
  | ft =>
    ({ field_id := field_id,
       ftype := "unknown (" ++ (match ft with | some s => s | none => "None") ++ ")" },
     false)

/-- A page-level object: the /T names along its parent chain (leaf to
root), the keys of its /AP /N dictionary, and its /Rect. -/
structure Annot where
  chain : List (Option String)
  apOn : Option (List String)
  rect : Option Rect4
deriving DecidableEq, Repr

/-- get_full_annotation_field_id: collect the /T names along the parent
chain, reverse, and dot-join; None when no component was found. -/
def get_full_annotation_field_id (chain : List (Option String)) : Option String :=
  let components := chain.filterMap id
  if components.isEmpty then none
  else some (String.intercalate "." components.reverse)

/-- A document as the extractor sees it: the get_fields() dictionary
(association list in insertion order) and the per-page object lists. -/
structure PdfDoc where
  fields : List (String × FieldRec)
  pages : List (List Annot)
deriving Repr

/-- Names of container button fields retained as candidate radio-group
names (a set in the source; only membership is used). -/
def possible_radio_names (fields : List (String × FieldRec)) : List String :=
  fields.filterMap fun kf =>
    if kf.2.hasKids ∧ kf.2.ft = some "/Btn" then some kf.1 else none

/-- Python dict assignment d[k] = v on an insertion-ordered association
list: replace in place when the key exists, else append. -/
def upsertInfo (l : List (String × FieldInfo)) (k : String) (v : FieldInfo) :
    List (String × FieldInfo) :=
  if (l.lookup k).isSome then
    l.map fun kv => if kv.1 = k then (k, v) else kv
  else l ++ [(k, v)]

/-- field_info_by_id: leaf fields (those without children) mapped to
their make_field_dict record, in field-dictionary order. -/
def initial_field_infos (fields : List (String × FieldRec)) :
    List (String × FieldInfo) :=
  fields.foldl (fun acc kf =>
    if kf.2.hasKids then acc
    else upsertInfo acc kf.1 (make_field_dict kf.2 kf.1).1) []

/-- State of the page scan: the leaf-field dictionary and the
radio_fields_by_id dictionary. -/
structure ScanState where
  infos : List (String × FieldInfo)
  radios : List (String × FieldInfo)
deriving Repr

/-- Assignment of page and rect onto an existing leaf-field entry
(overwrites on each matching sighting, as the source does). -/
def updatePageRect (l : List (String × FieldInfo)) (k : String) (p : Nat)
    (r : Option Rect4) : List (String × FieldInfo) :=
  l.map fun kv =>
    if kv.1 = k then (k, { kv.2 with page := some p, rect := r }) else kv

/-- Append one {value, rect} option to a radio-group entry. -/
def appendRadioOption (l : List (String × FieldInfo)) (k : String) (v : String)
    (r : Option Rect4) : List (String × FieldInfo) :=
  l.map fun kv =>
    if kv.1 = k then
      (k, { kv.2 with radio_options := some ((kv.2.radio_options.getD []) ++ [(v, r)]) })
    else kv

/-- One iteration of the page scan over a single page object, carrying
the 1-based page number. -/
def scanStep (prn : List String) (st : ScanState) (pa : Nat × Annot) : ScanState :=
  match get_full_annotation_field_id pa.2.chain with
  | none => st
  | some fid =>
    if (st.infos.lookup fid).isSome then
      { st with infos := updatePageRect st.infos fid pa.1 pa.2.rect }
    else if prn.contains fid then
      match pa.2.apOn with
      | none => st
      | some aps =>
        match aps.filter (fun v => v ≠ "/Off") with
        | [on_value] =>
          let newEntry : FieldInfo :=
            { field_id := fid, ftype := "radio_group",
              page := some pa.1, radio_options := some [] }
          let radios1 :=
            if (st.radios.lookup fid).isSome then st.radios
            else st.radios ++ [(fid, newEntry)]
          { st with radios := appendRadioOption radios1 fid on_value pa.2.rect }
        | _ => st
    else st

/-- All page objects in scan order, tagged with their 1-based page
number. -/
def pageAnnots (doc : PdfDoc) : List (Nat × Annot) :=
  (doc.pages.enum).flatMap fun pe => pe.2.map fun a => (pe.1 + 1, a)

/-- sort_key: (page, [-rect[1], rect[0]]) where a radio-group entry
takes the first option's rect; a missing rect falls back to
[0, 0, 0, 0]. The source indexes radio_options[0]; the unreachable
empty-options case also falls back to the zero rect. -/
def sortKey (f : FieldInfo) : Nat × ℚ × ℚ :=
  let rect :=
    match f.radio_options with
    | some opts =>
      match opts.head? with
      | some o => o.2.getD ⟨0, 0, 0, 0⟩
      | none => ⟨0, 0, 0, 0⟩
    | none => f.rect.getD ⟨0, 0, 0, 0⟩
  (f.page.getD 0, -rect.i1, rect.i0)

/-- Lexicographic comparison of sort keys, as Python compares the key
lists. -/
def keyLE : Nat × ℚ × ℚ → Nat × ℚ × ℚ → Prop := fun a b =>
  a.1 < b.1 ∨ (a.1 = b.1 ∧ (a.2.1 < b.2.1 ∨ (a.2.1 = b.2.1 ∧ a.2.2 ≤ b.2.2)))

instance : DecidableRel keyLE := fun a b => by
  unfold keyLE; infer_instance

/-- The reading-order relation on schema entries. -/
def fieldLE (f g : FieldInfo) : Prop := keyLE (sortKey f) (sortKey g)

instance : DecidableRel fieldLE := fun f g => by
  unfold fieldLE; infer_instance

instance : IsTotal FieldInfo fieldLE where
  total f g := by
    unfold fieldLE keyLE
    rcases lt_trichotomy (sortKey f).1 (sortKey g).1 with h | h | h
    · exact Or.inl (Or.inl h)
    · rcases lt_trichotomy (sortKey f).2.1 (sortKey g).2.1 with h2 | h2 | h2
      · exact Or.inl (Or.inr ⟨h, Or.inl h2⟩)
      · rcases le_total (sortKey f).2.2 (sortKey g).2.2 with h3 | h3
        · exact Or.inl (Or.inr ⟨h, Or.inr ⟨h2, h3⟩⟩)
        · exact Or.inr (Or.inr ⟨h.symm, Or.inr ⟨h2.symm, h3⟩⟩)
      · exact Or.inr (Or.inr ⟨h.symm, Or.inl h2⟩)
    · exact Or.inr (Or.inl h)

instance : IsTrans FieldInfo fieldLE where
  trans f g h hfg hgh := by
    unfold fieldLE keyLE at hfg hgh ⊢
    rcases hfg with h1 | ⟨h1, h2⟩
    · rcases hgh with h3 | ⟨h3, _⟩
      · exact Or.inl (h1.trans h3)
      · exact Or.inl (h3 ▸ h1)
    · rcases hgh with h3 | ⟨h3, h4⟩
      · exact Or.inl (h1 ▸ h3)
      · refine Or.inr ⟨h1.trans h3, ?_⟩
        rcases h2 with h2 | ⟨h2, h2b⟩
        · rcases h4 with h4 | ⟨h4, _⟩
          · exact Or.inl (h2.trans h4)
          · exact Or.inl (h4 ▸ h2)
        · rcases h4 with h4 | ⟨h4, h4b⟩
          · exact Or.inl (h2 ▸ h4)
          · exact Or.inr ⟨h2.trans h4, h2b.trans h4b⟩

/-- get_field_info: build leaf-field entries, scan all pages to attach
locations and accumulate radio groups, drop entries without a location,
and sort into reading order (Python sort is stable; so is insertion
sort). -/
def get_field_info (doc : PdfDoc) : List FieldInfo :=
  let infos0 := initial_field_infos doc.fields
  let prn := possible_radio_names doc.fields
  let st := (pageAnnots doc).foldl (scanStep prn) ⟨infos0, []⟩
  let fields_with_location := (st.infos.map Prod.snd).filter fun f => f.page.isSome
  let sorted_fields := fields_with_location ++ st.radios.map Prod.snd
  List.insertionSort fieldLE sorted_fields

/-! Embedding of pdf_fill_form.py and auxiliary definitions for the
remaining claims. -/

/-- The non-"/Off" appearance state of a page object, when the object
has an appearance map carrying exactly one such state (the condition
under which the scan treats it as a physical radio button). -/
def radioOnValue (a : Annot) : Option String :=
  match a.apOn with
  | none => none
  | some aps =>
    match aps.filter (fun v => v ≠ "/Off") with
    | [v] => some v
    | _ => none

/-- The page objects whose hierarchical field id resolves to g, in scan
order. -/
def gAnnots (doc : PdfDoc) (g : String) : List (Nat × Annot) :=
  (pageAnnots doc).filter fun pa =>
    get_full_annotation_field_id pa.2.chain == some g

/-- The {value, rect} options those objects contribute, in scan order. -/
def radioOpts (doc : PdfDoc) (g : String) : List (String × Option Rect4) :=
  (gAnnots doc g).filterMap fun pa =>
    (radioOnValue pa.2).map fun v => (v, pa.2.rect)

/-- Graph model of raw objects for the parent walk, allowing the
malformed cyclic graphs the design note warns about: each stored object
has a /T name and an optional parent index. -/
structure AnnRec where
  tField : Option String
  parentIdx : Option Nat
deriving DecidableEq, Repr

/-- One iteration of the while-loop control variable of
get_full_annotation_field_id in the source: move to the /Parent object;
the loop exits only when this becomes None. -/
def parentStep (store : List AnnRec) (cur : Option Nat) : Option Nat :=
  match cur with
  | none => none
  | some i =>
    match store[i]? with
    | some r => r.parentIdx
    | none => none

/-- A one-object store whose object names itself as its own /Parent. -/
def cyclicStore : List AnnRec := [⟨some "a", some 0⟩]

/-- Validation errors of pdf_fill_form.py, one constructor per printed
ERROR format. -/
inductive FillErr where
  | invalidFieldId (field_id : String)
  | pageMismatch (field_id : String) (got expected : Nat)
  | illegalCheckbox (value field_id checked unchecked : String)
  | illegalRadio (value field_id : String) (valid : List String)
  | illegalChoice (value field_id : String) (valid : List String)
deriving DecidableEq, Repr

/-- The field named by an error message. -/
def errFieldId : FillErr → String
  | .invalidFieldId f => f
  | .pageMismatch f _ _ => f
  | .illegalCheckbox _ f _ _ => f
  | .illegalRadio _ f _ => f
  | .illegalChoice _ f _ => f

/-- One record of the field_values.json input; value is optional. -/
structure Assignment where
  field_id : String
  page : Nat
  value : Option String
deriving DecidableEq, Repr

/-- validation_error_for_field_value: check a value against the type
constraints of its schema entry. Returns ok none when valid, ok (some
err) when invalid, and error () for the KeyError raised when a checkbox
entry lacks checked_value or unchecked_value (or an options list is
missing for the other types). -/
def validation_error_for_field_value (field_info : FieldInfo)
    (field_value : String) : Except Unit (Option FillErr) :=
  if field_info.ftype = "checkbox" then
    match field_info.checked_value, field_info.unchecked_value with
    | some cv, some uv =>
      if field_value ≠ cv ∧ field_value ≠ uv then
        .ok (some (.illegalCheckbox field_value field_info.field_id cv uv))
      else .ok none
    | _, _ => .error ()
  else if field_info.ftype = "radio_group" then
    match field_info.radio_options with
    | some opts =>
      let option_values := opts.map Prod.fst
      if ¬ option_values.contains field_value then
        .ok (some (.illegalRadio field_value field_info.field_id option_values))
      else .ok none
    | none => .error ()
  else if field_info.ftype = "choice" then
    match field_info.choice_options with
    | some opts =>
      let choice_values := opts.map Prod.fst
      if ¬ choice_values.contains field_value then
        .ok (some (.illegalChoice field_value field_info.field_id choice_values))
      else .ok none
    | none => .error ()
  else .ok none

/-- fields_by_ids: the schema list keyed by field_id (later duplicates
overwrite, as a Python dict comprehension does). -/
def fieldsByIds (schema : List FieldInfo) : List (String × FieldInfo) :=
  schema.foldl (fun acc f => upsertInfo acc f.field_id f) []

/-- The per-assignment body of the validation loop: unknown field id,
then page mismatch, then the type-specific value check (skipped when no
value is supplied); error () models a KeyError escaping the loop. -/
def checkAssignment (fields_by_ids : List (String × FieldInfo))
    (field : Assignment) : Except Unit (Option FillErr) :=
  match fields_by_ids.lookup field.field_id with
  | none => .ok (some (.invalidFieldId field.field_id))
  | some existing_field =>
    match existing_field.page with
    | none => .error ()
    | some p =>
      if field.page ≠ p then
        .ok (some (.pageMismatch field.field_id field.page p))
      else
        match field.value with
        | some v => validation_error_for_field_value existing_field v
        | none => .ok none

/-- Python dict assignment on a string-to-string association list. -/
def upsertVal (l : List (String × String)) (k v : String) :
    List (String × String) :=
  if (l.lookup k).isSome then
    l.map fun kv => if kv.1 = k then (k, v) else kv
  else l ++ [(k, v)]

/-- fields_by_page: assignments carrying a value, grouped into one
field-to-value map per page, in insertion order. -/
def groupByPage (fields : List Assignment) :
    List (Nat × List (String × String)) :=
  fields.foldl (fun acc f =>
    match f.value with
    | none => acc
    | some v =>
      if (acc.lookup f.page).isSome then
        acc.map fun pv =>
          if pv.1 = f.page then (pv.1, upsertVal pv.2 f.field_id v) else pv
      else acc ++ [(f.page, [(f.field_id, v)])]) []

/-- Outcome of fill_pdf_fields: a KeyError aborting the run before the
writer stage, a validation failure (sys.exit(1) after printing every
accumulated error, no writer created), or success carrying the per-page
write batches passed to the writer. -/
inductive FillOutcome where
  | keyErrorAbort
  | validationFailure (errors : List FillErr)
  | success (writes : List (Nat × List (String × String)))
deriving DecidableEq, Repr

/-- The pre-validation loop: accumulate one error per invalid
assignment over the whole list, stopping only if a KeyError escapes. -/
def validatePhase (fields_by_ids : List (String × FieldInfo))
    (assigns : List Assignment) : Except Unit (List FillErr) :=
  assigns.foldlM (fun errs a =>
    (checkAssignment fields_by_ids a).map fun e => errs ++ e.toList) []

/-- fill_pdf_fields: group values by page, extract the schema, validate
every assignment, and only when no error was found create the writer
and apply the write batches. -/
def fill_pdf_fields (doc : PdfDoc) (fields : List Assignment) : FillOutcome :=
  let fields_by_page := groupByPage fields
  let field_info := get_field_info doc
  let fields_by_ids := fieldsByIds field_info
  match validatePhase fields_by_ids fields with
  | .error _ => .keyErrorAbort
  | .ok errs =>
    if errs.isEmpty then .success fields_by_page
    else .validationFailure errs

/-- A type-illegal value in the sense of the specification: a checkbox
value outside its two toggle values, a radio value outside the group's
option values, or a choice value outside the option values. -/
def illegalValue (fi : FieldInfo) (v : String) : Prop :=
  (fi.ftype = "checkbox" ∧ fi.checked_value ≠ some v ∧ fi.unchecked_value ≠ some v) ∨
  (fi.ftype = "radio_group" ∧ v ∉ (fi.radio_options.getD []).map Prod.fst) ∨
  (fi.ftype = "choice" ∧ v ∉ (fi.choice_options.getD []).map Prod.fst)

instance (fi : FieldInfo) (v : String) : Decidable (illegalValue fi v) := by
  unfold illegalValue; infer_instance

/-- An invalid assignment in the sense of the specification: its
field_id is not in the extracted schema, or its page differs from the
schema entry's resolved page, or its value is type-illegal. -/
def specInvalid (m : List (String × FieldInfo)) (a : Assignment) : Prop :=
  (m.lookup a.field_id).elim True fun fi =>
    fi.page ≠ some a.page ∨ a.value.elim False fun v => illegalValue fi v

instance (m : List (String × FieldInfo)) (a : Assignment) :
    Decidable (specInvalid m a) := by
  unfold specInvalid
  cases m.lookup a.field_id with
  | none => exact .isTrue trivial
  | some fi =>
    cases a.value with
    | none => simp only [Option.elim]; infer_instance
    | some v => simp only [Option.elim]; infer_instance

/-- Per-entry invariant maintained over the page scan: infos entries
carry their key as field_id and have the payload their type requires
(except page, attached during the scan); radios entries are complete
radio groups. -/
def ScanInv (st : ScanState) : Prop :=
  (∀ kv ∈ st.infos, kv.2.field_id = kv.1 ∧
    (kv.2.ftype = "radio_group" → kv.2.radio_options.isSome = true) ∧
    (kv.2.ftype = "choice" → kv.2.choice_options.isSome = true)) ∧
  (∀ kv ∈ st.radios, kv.2.field_id = kv.1 ∧ kv.2.page.isSome = true ∧
    kv.2.ftype = "radio_group" ∧ kv.2.radio_options.isSome = true)

/-- The error (if any) the validation loop records for one assignment. -/
def assignError (m : List (String × FieldInfo)) (a : Assignment) :
    Option FillErr :=
  match checkAssignment m a with
  | .ok e => e
  | .error _ => none

/-- The {value, rect} option an object contributes to group g, none if
it does not belong to g or does not qualify. -/
def radioOptOf (g : String) (pa : Nat × Annot) : Option (String × Option Rect4) :=
  if get_full_annotation_field_id pa.2.chain == some g then
    (radioOnValue pa.2).map fun v => (v, pa.2.rect)
  else none

/-- Specification-level view of what one scan step does to the single
radio-group entry named g. -/
def radioSpecStep (g : String) (e? : Option FieldInfo) (pa : Nat × Annot) :
    Option FieldInfo :=
  if get_full_annotation_field_id pa.2.chain = some g then
    match radioOnValue pa.2 with
    | some v =>
      match e? with
      | none =>
        some ⟨g, "radio_group", none, none, none, some [(v, pa.2.rect)], some pa.1, none⟩
      | some e =>
        some { e with radio_options := some ((e.radio_options.getD []) ++ [(v, pa.2.rect)]) }
    | none => e?
  else e?

/-- A one-group, two-button document for a concrete round trip. -/
def radioDoc : PdfDoc :=
  ⟨[("gender", ⟨some "/Btn", true, [], []⟩)],
   [[⟨[some "gender"], some ["/M", "/Off"], some ⟨0, 0, 10, 10⟩⟩,
     ⟨[some "gender"], some ["/F", "/Off"], some ⟨0, 20, 10, 30⟩⟩]]⟩

/-- rects_intersect is true exactly when the rectangles overlap strictly
on both axes. -/
theorem rects_intersect_eq_true_iff (r1 r2 : Rect4) :
    rects_intersect r1 r2 = true ↔
      r1.i0 < r2.i2 ∧ r2.i0 < r1.i2 ∧ r1.i1 < r2.i3 ∧ r2.i1 < r1.i3 := by
  simp only [rects_intersect, Bool.not_eq_true', Bool.or_eq_false_iff,
    decide_eq_false_iff_not, not_le, ge_iff_le]
  tauto

/-- C2: rects_intersect returns false exactly when r1.left ≥ r2.right or
r1.right ≤ r2.left or r1.top ≥ r2.bottom or r1.bottom ≤ r2.top; edges
that merely touch (an equal coordinate) are not an intersection, and
every pair with positive-area overlap is an intersection. -/
theorem rects_intersect_spec (r1 r2 : Rect4) :
    (rects_intersect r1 r2 = false ↔
      (r1.i0 ≥ r2.i2 ∨ r1.i2 ≤ r2.i0 ∨ r1.i1 ≥ r2.i3 ∨ r1.i3 ≤ r2.i1)) ∧
    (r1.i0 = r2.i2 → rects_intersect r1 r2 = false) ∧
    (r1.i2 = r2.i0 → rects_intersect r1 r2 = false) ∧
    (r1.i1 = r2.i3 → rects_intersect r1 r2 = false) ∧
    (r1.i3 = r2.i1 → rects_intersect r1 r2 = false) ∧
    (max r1.i0 r2.i0 < min r1.i2 r2.i2 → max r1.i1 r2.i1 < min r1.i3 r2.i3 →
      rects_intersect r1 r2 = true) := by
  have hiff := rects_intersect_eq_true_iff r1 r2
  have hfalse : rects_intersect r1 r2 = false ↔
      (r1.i0 ≥ r2.i2 ∨ r1.i2 ≤ r2.i0 ∨ r1.i1 ≥ r2.i3 ∨ r1.i3 ≤ r2.i1) := by
    rw [← Bool.not_eq_true, hiff]
    push_neg
    constructor
    · intro h
      by_cases h1 : r1.i0 < r2.i2
      · by_cases h2 : r2.i0 < r1.i2
        · by_cases h3 : r1.i1 < r2.i3
          · exact Or.inr (Or.inr (Or.inr (h h1 h2 h3)))
          · exact Or.inr (Or.inr (Or.inl (not_lt.mp h3)))
        · exact Or.inr (Or.inl (not_lt.mp h2))
      · exact Or.inl (not_lt.mp h1)
    · rintro (h | h | h | h) h1 h2 h3
      · exact absurd h1 (not_lt.mpr h)
      · exact absurd h2 (not_lt.mpr h)
      · exact absurd h3 (not_lt.mpr h)
      · exact h
  refine ⟨hfalse, fun h => ?_, fun h => ?_, fun h => ?_, fun h => ?_, fun h1 h2 => ?_⟩
  · exact hfalse.mpr (Or.inl h.ge)
  · exact hfalse.mpr (Or.inr (Or.inl h.le))
  · exact hfalse.mpr (Or.inr (Or.inr (Or.inl h.ge)))
  · exact hfalse.mpr (Or.inr (Or.inr (Or.inr h.le)))
  · simp only [max_lt_iff, lt_min_iff] at h1 h2
    exact hiff.mpr ⟨h1.2.1, h1.1.2, h2.2.1, h2.1.2⟩

/-- C3: transform_coordinates returns exactly
(l·w/W, h − b·h/H, r·w/W, h − t·h/H) as (left, bottom, right, top), and
on image (800, 1100), page (612, 792), pixel box [100, 125, 280, 142]
it yields left = 76.5, bottom = 689.76, right = 214.2, top = 702. -/
theorem transform_coordinates_spec :
    (∀ (bbox : Rect4) (W H w h : ℚ), 0 < W → 0 < H →
      transform_coordinates bbox W H w h =
        (bbox.i0 * w / W, h - bbox.i3 * h / H, bbox.i2 * w / W, h - bbox.i1 * h / H)) ∧
    transform_coordinates ⟨100, 125, 280, 142⟩ 800 1100 612 792 =
      (76.5, 689.76, 214.2, 702) := by
  constructor
  · intro bbox W H w h _ _
    simp [transform_coordinates, mul_div_assoc]
  · show ((100 : ℚ) * (612 / 800), 792 - 142 * (792 / 1100), 280 * (612 / 800),
      792 - 125 * (792 / 1100)) = (76.5, 689.76, 214.2, 702)
    norm_num

theorem transform_coordinates_spec_witness :
    transform_coordinates ⟨0, 0, 1, 1⟩ 2 2 10 10 = (0, 5, 5, 10) := by
  have h := transform_coordinates_spec.1 ⟨0, 0, 1, 1⟩ 2 2 10 10 (by norm_num) (by norm_num)
  rw [h]
  norm_num

theorem rects_intersect_spec_witness :
    rects_intersect ⟨0, 0, 1, 1⟩ ⟨1, 0, 2, 1⟩ = false ∧
    rects_intersect ⟨0, 0, 2, 2⟩ ⟨1, 1, 3, 3⟩ = true :=
  ⟨(rects_intersect_spec ⟨0, 0, 1, 1⟩ ⟨1, 0, 2, 1⟩).2.2.1 rfl,
   (rects_intersect_spec ⟨0, 0, 2, 2⟩ ⟨1, 1, 3, 3⟩).2.2.2.2.2 (by norm_num) (by norm_num)⟩

/-- Every message produced by the pair and height checks is a FAILURE
message. -/
theorem allEvents_isFailure (rfs : List RectAndField) :
    ∀ m ∈ allEvents rfs, m.isFailure = true := by
  induction rfs with
  | nil => intro m hm; simp [allEvents] at hm
  | cons ri rest ih =>
    intro m hm
    simp only [allEvents, List.mem_append] at hm
    rcases hm with (hm | hm) | hm
    · rcases List.mem_filterMap.mp hm with ⟨rj, _hj, hpe⟩
      unfold pairEvent at hpe
      split at hpe
      · split at hpe
        · injection hpe with h2; subst h2; rfl
        · injection hpe with h2; subst h2; rfl
      · simp at hpe
    · rw [Option.mem_toList, Option.mem_def] at hm
      unfold heightEvent at hm
      split at hm
      · split at hm
        · split at hm
          · injection hm with h2; subst h2; rfl
          · simp at hm
        · simp at hm
      · simp at hm
    · exact ih m hm

/-- addFailure preserves the bounded-reporting invariant when fed a
FAILURE message. -/
theorem addFailure_inv (st : VState) (m : VMsg) (hm : m.isFailure = true)
    (h : VInv st) : VInv (addFailure st m) := by
  have hmab : m ≠ VMsg.aborting := by
    rintro rfl; simp [VMsg.isFailure] at hm
  rcases h with ⟨hf, ht⟩
  unfold addFailure
  by_cases hab : st.aborted = true
  · simp only [hab, if_true]
    exact ⟨hf, ht⟩
  · have hfa : st.aborted = false := by simpa using hab
    obtain ⟨hlen, hle, hnot⟩ := hf hfa
    simp only [hfa, Bool.false_eq_true, if_false]
    by_cases h20 : 20 ≤ (st.messages ++ [m]).length
    · rw [if_pos h20]
      constructor
      · intro hcontra; simp at hcontra
      · intro _
        simp only [List.length_append, List.length_singleton] at h20 ⊢
        have hlen19 : st.messages.length = 19 := by omega
        refine ⟨by simp [List.length_append]; omega, ?_, ?_, by trivial⟩
        · simp only [List.filter_append, List.length_append]
          have h1 : (List.filter VMsg.isFailure [m]).length = 1 := by
            simp [List.filter, hm]
          have h2 : (List.filter VMsg.isFailure [VMsg.aborting]).length = 0 := by
            simp [List.filter, VMsg.isFailure]
          omega
        · exact List.getLast?_concat _
    · rw [if_neg h20]
      constructor
      · intro _
        simp only [List.length_append, List.length_singleton] at h20 ⊢
        refine ⟨?_, by omega, ?_⟩
        · simp only [List.filter_append]
          have h1 : (List.filter VMsg.isFailure [m]).length = 1 := by
            simp [List.filter, hm]
          simp only [List.length_append]
          omega
        · intro hcontra
          rcases List.mem_append.mp hcontra with h | h
          · exact hnot h
          · simp at h; exact hmab h.symm
      · intro hcontra; simp at hcontra

/-- Folding addFailure over FAILURE messages preserves the invariant. -/
theorem foldl_addFailure_inv (evs : List VMsg) (st : VState)
    (hevs : ∀ m ∈ evs, m.isFailure = true) (h : VInv st) :
    VInv (evs.foldl addFailure st) := by
  induction evs generalizing st with
  | nil => exact h
  | cons m rest ih =>
    exact ih (addFailure st m)
      (fun x hx => hevs x (List.mem_cons_of_mem m hx))
      (addFailure_inv st m (hevs m (List.mem_cons_self m rest)) h)

set_option maxRecDepth 100000 in
/-- C4: the geometry validator stops emitting findings once the message
count reaches 20, appending the aborting notice as the last message: on
any input at most 19 FAILURE findings are emitted, and whenever the
aborting notice appears it is the last message of an exactly-21-message
output; on the 13-field input with 25 mutually overlapping boxes it
aborts after 19 findings, far fewer than the C(25,2) = 300 overlapping
pairs. -/
theorem geometry_validator_bounded (fields : List BBField) :
    ((get_bounding_box_messages fields).filter VMsg.isFailure).length ≤ 19 ∧
    (VMsg.aborting ∈ get_bounding_box_messages fields →
      (get_bounding_box_messages fields).getLast? = some VMsg.aborting ∧
      (get_bounding_box_messages fields).length = 21) ∧
    VMsg.aborting ∈ get_bounding_box_messages overlapExample ∧
    (get_bounding_box_messages overlapExample).getLast? = some VMsg.aborting ∧
    ((get_bounding_box_messages overlapExample).filter VMsg.isFailure).length = 19 ∧
    19 < Nat.choose 25 2 := by
  have hgen : ∀ gs : List BBField,
      ((get_bounding_box_messages gs).filter VMsg.isFailure).length ≤ 19 ∧
      (VMsg.aborting ∈ get_bounding_box_messages gs →
        (get_bounding_box_messages gs).getLast? = some VMsg.aborting ∧
        (get_bounding_box_messages gs).length = 21) := by
    intro gs
    have hinit : VInv ⟨[VMsg.readFields gs.length], false, false⟩ := by
      constructor
      · intro _
        refine ⟨by simp [VMsg.isFailure], by simp, by simp⟩
      · intro hcontra; simp at hcontra
    have hinv : VInv ((allEvents (toRectAndFields gs)).foldl addFailure
        ⟨[VMsg.readFields gs.length], false, false⟩) :=
      foldl_addFailure_inv _ _ (allEvents_isFailure _) hinit
    set st := (allEvents (toRectAndFields gs)).foldl addFailure
      ⟨[VMsg.readFields gs.length], false, false⟩ with hst
    have hout : get_bounding_box_messages gs =
        if st.hasError then st.messages else st.messages ++ [VMsg.success] := rfl
    rcases hinv with ⟨hf, ht⟩
    by_cases hab : st.aborted = true
    · obtain ⟨h21, h19, hlast, herr⟩ := ht hab
      rw [hout, if_pos herr]
      exact ⟨le_of_eq h19, fun _ => ⟨hlast, h21⟩⟩
    · have hfa : st.aborted = false := by simpa using hab
      obtain ⟨hlen, hle, hnot⟩ := hf hfa
      rw [hout]
      by_cases herr : st.hasError = true
      · rw [if_pos herr]
        exact ⟨by omega, fun hmem => absurd hmem hnot⟩
      · rw [if_neg herr]
        constructor
        · rw [List.filter_append]
          have hsz : (List.filter VMsg.isFailure [VMsg.success]).length = 0 := by
            simp [List.filter, VMsg.isFailure]
          simp only [List.length_append]
          omega
        · intro hmem
          rcases List.mem_append.mp hmem with h | h
          · exact absurd h hnot
          · simp at h
  refine ⟨(hgen fields).1, (hgen fields).2, by decide, by decide, by decide, by decide⟩

theorem geometry_validator_bounded_witness :
    (get_bounding_box_messages overlapExample).getLast? = some VMsg.aborting ∧
    (get_bounding_box_messages overlapExample).length = 21 :=
  (geometry_validator_bounded overlapExample).2.1
    (geometry_validator_bounded overlapExample).2.2.1

/-- C7: the height check flags an entry box with text metadata and a
configured font size exactly when rect[3] - rect[1] (bottom minus top)
is below the font size, never flags a box without text metadata, and in
particular flags height 10 against font size 14 but not height 25. -/
theorem height_check_spec :
    (∀ (ri : RectAndField) (et : EntryText) (fs : ℚ),
        ri.rect_type = "entry" → ri.field.entry_text = some et →
        et.font_size = some fs →
        ((heightEvent ri).isSome = true ↔ ri.rect.i3 - ri.rect.i1 < fs)) ∧
    (∀ ri : RectAndField, ri.field.entry_text = none → heightEvent ri = none) ∧
    (heightEvent ⟨⟨20, 0, 30, 10⟩, "entry", 0,
      ⟨1, "f", ⟨0, 0, 10, 10⟩, ⟨20, 0, 30, 10⟩, some ⟨some 14⟩⟩⟩).isSome = true ∧
    heightEvent ⟨⟨20, 0, 30, 25⟩, "entry", 0,
      ⟨1, "f", ⟨0, 0, 10, 10⟩, ⟨20, 0, 30, 25⟩, some ⟨some 14⟩⟩⟩ = none := by
  have hgen : ∀ (ri : RectAndField) (et : EntryText) (fs : ℚ),
      ri.rect_type = "entry" → ri.field.entry_text = some et →
      et.font_size = some fs →
      ((heightEvent ri).isSome = true ↔ ri.rect.i3 - ri.rect.i1 < fs) := by
    intro ri et fs h1 h2 h3
    simp [heightEvent, h1, h2, h3]
  have hnone : ∀ ri : RectAndField, ri.field.entry_text = none →
      heightEvent ri = none := by
    intro ri h
    simp [heightEvent, h]
  refine ⟨hgen, hnone, ?_, ?_⟩
  · exact (hgen ⟨⟨20, 0, 30, 10⟩, "entry", 0,
      ⟨1, "f", ⟨0, 0, 10, 10⟩, ⟨20, 0, 30, 10⟩, some ⟨some 14⟩⟩⟩ ⟨some 14⟩ 14
      rfl rfl rfl).mpr (by norm_num)
  · have h := hgen ⟨⟨20, 0, 30, 25⟩, "entry", 0,
      ⟨1, "f", ⟨0, 0, 10, 10⟩, ⟨20, 0, 30, 25⟩, some ⟨some 14⟩⟩⟩ ⟨some 14⟩ 14
      rfl rfl rfl
    have hno : ¬((heightEvent ⟨⟨20, 0, 30, 25⟩, "entry", 0,
        ⟨1, "f", ⟨0, 0, 10, 10⟩, ⟨20, 0, 30, 25⟩, some ⟨some 14⟩⟩⟩).isSome = true) := by
      rw [h]; norm_num
    simpa [Option.not_isSome_iff_eq_none] using hno

theorem height_check_spec_witness :
    (heightEvent ⟨⟨20, 5, 30, 15⟩, "entry", 0,
      ⟨1, "g", ⟨0, 0, 10, 10⟩, ⟨20, 5, 30, 15⟩, some ⟨some 14⟩⟩⟩).isSome = true ∧
    heightEvent ⟨⟨40, 5, 50, 15⟩, "entry", 1,
      ⟨1, "h", ⟨30, 0, 40, 4⟩, ⟨40, 5, 50, 15⟩, none⟩⟩ = none :=
  ⟨(height_check_spec.1 ⟨⟨20, 5, 30, 15⟩, "entry", 0,
      ⟨1, "g", ⟨0, 0, 10, 10⟩, ⟨20, 5, 30, 15⟩, some ⟨some 14⟩⟩⟩ ⟨some 14⟩ 14
      rfl rfl rfl).mpr (by norm_num),
   height_check_spec.2.1 ⟨⟨40, 5, 50, 15⟩, "entry", 1,
      ⟨1, "h", ⟨30, 0, 40, 4⟩, ⟨40, 5, 50, 15⟩, none⟩⟩ rfl⟩

/-- C8: for a button field with exactly two observed toggle states, if
one is the conventional "/Off" marker the entry gets unchecked_value
"/Off" and checked_value the other state (no warning); if neither is
"/Off" the warning flag is set and assignment is positional (checked
first state, unchecked second), while extraction still returns a
checkbox entry. -/
theorem checkbox_states_spec (field : FieldRec) (fid s1 s2 : String)
    (hft : field.ft = some "/Btn") (hst : field.btnStates = [s1, s2]) :
    ((make_field_dict field fid).1.ftype = "checkbox") ∧
    (s1 = "/Off" →
      (make_field_dict field fid).1.unchecked_value = some "/Off" ∧
      (make_field_dict field fid).1.checked_value = some s2 ∧
      (make_field_dict field fid).2 = false) ∧
    (s1 ≠ "/Off" → s2 = "/Off" →
      (make_field_dict field fid).1.unchecked_value = some "/Off" ∧
      (make_field_dict field fid).1.checked_value = some s1 ∧
      (make_field_dict field fid).2 = false) ∧
    (s1 ≠ "/Off" → s2 ≠ "/Off" →
      (make_field_dict field fid).2 = true ∧
      (make_field_dict field fid).1.checked_value = some s1 ∧
      (make_field_dict field fid).1.unchecked_value = some s2) := by
  obtain ⟨ft, kids, bst, cst⟩ := field
  dsimp at hft hst
  subst hft hst
  refine ⟨?_, ?_, ?_, ?_⟩
  · simp only [make_field_dict]
    split_ifs <;> rfl
  · intro h1; subst h1; simp [make_field_dict]
  · intro h1 h2; subst h2; simp [make_field_dict, h1]
  · intro h1 h2; simp [make_field_dict, h1, h2]

theorem checkbox_states_spec_witness :
    (make_field_dict ⟨some "/Btn", false, ["/Yes", "/Off"], []⟩ "cb").1.unchecked_value
      = some "/Off" ∧
    (make_field_dict ⟨some "/Btn", false, ["/Yes", "/Off"], []⟩ "cb").1.checked_value
      = some "/Yes" ∧
    (make_field_dict ⟨some "/Btn", false, ["/A", "/B"], []⟩ "cb2").2 = true := by
  have h1 := (checkbox_states_spec ⟨some "/Btn", false, ["/Yes", "/Off"], []⟩
    "cb" "/Yes" "/Off" rfl rfl).2.2.1 (by decide) rfl
  have h2 := (checkbox_states_spec ⟨some "/Btn", false, ["/A", "/B"], []⟩
    "cb2" "/A" "/B" rfl rfl).2.2.2 (by decide) (by decide)
  exact ⟨h1.1, h1.2.1, h2.1⟩

/-- C6: the claim says the parent walk is protected by a bounded depth
guard and terminates even on cyclic graphs. The source has no such
guard: its while loop exits only when the /Parent link yields None. On
the one-object store whose object is its own parent, the loop control
variable is still some 0 after every number of iterations, so the exit
condition is never reached and the walk does not terminate. -/
theorem parent_walk_cyclic_no_guard :
    ∀ n : Nat, (parentStep cyclicStore)^[n] (some 0) = some 0 := by
  intro n
  induction n with
  | zero => rfl
  | succ n ih =>
    rw [Function.iterate_succ_apply,
      show parentStep cyclicStore (some 0) = some 0 from rfl]
    exact ih

/-- C9: the extracted schema is sorted by the lexicographic key (page
ascending, minus bottom-of-rect ascending, left-of-rect ascending),
where a plain entry's rect [left, bottom, right, top] supplies bottom =
index 1 and left = index 0, and a radio_group entry takes its first
option's rect. -/
theorem schema_reading_order (doc : PdfDoc) :
    List.Sorted fieldLE (get_field_info doc) ∧
    (∀ f : FieldInfo, f.radio_options = none →
      sortKey f = (f.page.getD 0, -(f.rect.getD ⟨0, 0, 0, 0⟩).i1,
        (f.rect.getD ⟨0, 0, 0, 0⟩).i0)) ∧
    (∀ (f : FieldInfo) (o : String × Option Rect4)
        (rest : List (String × Option Rect4)),
      f.radio_options = some (o :: rest) →
      sortKey f = (f.page.getD 0, -(o.2.getD ⟨0, 0, 0, 0⟩).i1,
        (o.2.getD ⟨0, 0, 0, 0⟩).i0)) ∧
    (∀ f g : FieldInfo, fieldLE f g ↔
      ((sortKey f).1 < (sortKey g).1 ∨ ((sortKey f).1 = (sortKey g).1 ∧
        ((sortKey f).2.1 < (sortKey g).2.1 ∨ ((sortKey f).2.1 = (sortKey g).2.1 ∧
          (sortKey f).2.2 ≤ (sortKey g).2.2))))) := by
  refine ⟨List.sorted_insertionSort fieldLE _, ?_, ?_, fun f g => Iff.rfl⟩
  · intro f hf; simp [sortKey, hf]
  · intro f o rest hf; simp [sortKey, hf]

theorem schema_reading_order_witness :
    sortKey ⟨"x", "text", none, none, none, none, some 2, some ⟨3, 4, 5, 6⟩⟩
      = (2, -4, 3) ∧
    sortKey ⟨"r", "radio_group", none, none, none,
      some [("/A", some ⟨7, 8, 9, 10⟩)], some 1, none⟩ = (1, -8, 7) := by
  have h := schema_reading_order ⟨[], []⟩
  constructor
  · rw [h.2.1 ⟨"x", "text", none, none, none, none, some 2,
      some ⟨3, 4, 5, 6⟩⟩ rfl]
    norm_num
  · rw [h.2.2.1 ⟨"r", "radio_group", none, none, none,
      some [("/A", some ⟨7, 8, 9, 10⟩)], some 1, none⟩
      ("/A", some ⟨7, 8, 9, 10⟩) [] rfl]
    norm_num

/-- If any assignment's check raises, the validation fold raises,
whatever errors accumulated before. -/
theorem validatePhase_error_aux (fbi : List (String × FieldInfo))
    (assigns : List Assignment) (errs0 : List FillErr)
    (h : ∃ a ∈ assigns, checkAssignment fbi a = .error ()) :
    assigns.foldlM (fun errs a =>
      (checkAssignment fbi a).map fun e => errs ++ e.toList) errs0 = .error () := by
  induction assigns generalizing errs0 with
  | nil => simp at h
  | cons a rest ih =>
    rcases h with ⟨b, hb, hberr⟩
    rcases List.mem_cons.mp hb with rfl | hbrest
    · rw [List.foldlM_cons, hberr]; rfl
    · cases hca : checkAssignment fbi a with
      | error e => cases e; rw [List.foldlM_cons, hca]; rfl
      | ok v =>
        rw [List.foldlM_cons, hca]
        exact ih (errs0 ++ v.toList) ⟨b, hbrest, hberr⟩

theorem validatePhase_error (fbi : List (String × FieldInfo))
    (assigns : List Assignment)
    (h : ∃ a ∈ assigns, checkAssignment fbi a = .error ()) :
    validatePhase fbi assigns = .error () :=
  validatePhase_error_aux fbi assigns [] h

/-- C10 test -/
theorem ambiguous_checkbox_keyerror :
    (∀ (field : FieldRec) (fid : String), field.ft = some "/Btn" →
      field.btnStates.length ≠ 2 →
      (make_field_dict field fid).1.ftype = "checkbox" ∧
      (make_field_dict field fid).1.checked_value = none ∧
      (make_field_dict field fid).1.unchecked_value = none ∧
      ∀ v, validation_error_for_field_value (make_field_dict field fid).1 v
        = .error ()) ∧
    (∀ (doc : PdfDoc) (assigns : List Assignment),
      (∃ a ∈ assigns,
        checkAssignment (fieldsByIds (get_field_info doc)) a = .error ()) →
      fill_pdf_fields doc assigns = .keyErrorAbort) := by
  constructor
  · intro field fid hft hlen
    obtain ⟨ft, kids, bst, cst⟩ := field
    dsimp at hft hlen
    subst hft
    have hstate : (make_field_dict ⟨some "/Btn", kids, bst, cst⟩ fid).1 =
        { field_id := fid, ftype := "checkbox" } := by
      rcases bst with _ | ⟨s1, _ | ⟨s2, _ | ⟨s3, rest⟩⟩⟩
      · simp [make_field_dict]
      · simp [make_field_dict]
      · exact absurd rfl hlen
      · simp [make_field_dict]
    rw [hstate]
    refine ⟨rfl, rfl, rfl, fun v => ?_⟩
    simp [validation_error_for_field_value]
  · intro doc assigns h
    have hrfl : fill_pdf_fields doc assigns =
        (match validatePhase (fieldsByIds (get_field_info doc)) assigns with
          | .error _ => FillOutcome.keyErrorAbort
          | .ok errs =>
            if errs.isEmpty then FillOutcome.success (groupByPage assigns)
            else FillOutcome.validationFailure errs) := rfl
    rw [hrfl, validatePhase_error _ _ h]

set_option maxRecDepth 100000 in
theorem ambiguous_checkbox_keyerror_witness :
    (make_field_dict ⟨some "/Btn", false, ["/A", "/B", "/C"], []⟩ "amb").1.ftype
      = "checkbox" ∧
    (make_field_dict ⟨some "/Btn", false, ["/A", "/B", "/C"], []⟩ "amb").1.checked_value
      = none ∧
    fill_pdf_fields
      ⟨[("amb", ⟨some "/Btn", false, ["/A", "/B", "/C"], []⟩)],
        [[⟨[some "amb"], none, some ⟨0, 0, 10, 10⟩⟩]]⟩
      [⟨"amb", 1, some "/A"⟩] = .keyErrorAbort := by
  have h1 := (ambiguous_checkbox_keyerror.1
    ⟨some "/Btn", false, ["/A", "/B", "/C"], []⟩ "amb" rfl (by decide))
  refine ⟨h1.1, h1.2.1, ?_⟩
  exact ambiguous_checkbox_keyerror.2
    ⟨[("amb", ⟨some "/Btn", false, ["/A", "/B", "/C"], []⟩)],
      [[⟨[some "amb"], none, some ⟨0, 0, 10, 10⟩⟩]]⟩
    [⟨"amb", 1, some "/A"⟩]
    ⟨⟨"amb", 1, some "/A"⟩, by decide, by rfl⟩

theorem lookup_mem {β : Type} {m : List (String × β)} {k : String} {v : β}
    (h : m.lookup k = some v) : (k, v) ∈ m := by
  induction m with
  | nil => simp [List.lookup] at h
  | cons kv t ih =>
    obtain ⟨k', v'⟩ := kv
    by_cases hk : (k == k') = true
    · simp only [List.lookup, hk] at h
      obtain rfl := eq_of_beq hk
      obtain rfl : v' = v := by injection h
      exact List.mem_cons_self _ _
    · rw [Bool.not_eq_true] at hk
      simp only [List.lookup, hk] at h
      exact List.mem_cons_of_mem _ (ih h)

theorem mem_upsertInfo {l : List (String × FieldInfo)} {k : String}
    {v : FieldInfo} {kv : String × FieldInfo}
    (h : kv ∈ upsertInfo l k v) : kv ∈ l ∨ kv = (k, v) := by
  unfold upsertInfo at h
  split at h
  · rcases List.mem_map.mp h with ⟨kv', hkv', heq⟩
    by_cases hk : kv'.1 = k
    · right; rw [if_pos hk] at heq; exact heq.symm
    · left; rw [if_neg hk] at heq; exact heq ▸ hkv'
  · rcases List.mem_append.mp h with h | h
    · exact Or.inl h
    · right; simpa using h

theorem unknown_ne (s t : String) (ht : t.data.head? ≠ some 'u') :
    "unknown (" ++ s ++ ")" ≠ t := by
  intro h
  apply ht
  rw [← h]
  rfl

/-- Entries built by make_field_dict carry their key, have no page yet,
and carry the payload their type requires; the type is never
radio_group. -/
theorem make_field_dict_inv (f : FieldRec) (fid : String) :
    (make_field_dict f fid).1.field_id = fid ∧
    (make_field_dict f fid).1.ftype ≠ "radio_group" ∧
    ((make_field_dict f fid).1.ftype = "choice" →
      (make_field_dict f fid).1.choice_options.isSome = true) := by
  unfold make_field_dict
  split
  · exact ⟨rfl, fun h => absurd (show ("text" : String) = "radio_group" from h)
      (by decide), fun h => absurd (show ("text" : String) = "choice" from h) (by decide)⟩
  · split
    · split
      · exact ⟨rfl, fun h => absurd (show ("checkbox" : String) = "radio_group" from h)
          (by decide), fun h => absurd (show ("checkbox" : String) = "choice" from h) (by decide)⟩
      · exact ⟨rfl, fun h => absurd (show ("checkbox" : String) = "radio_group" from h)
          (by decide), fun h => absurd (show ("checkbox" : String) = "choice" from h) (by decide)⟩
    · exact ⟨rfl, fun h => absurd (show ("checkbox" : String) = "radio_group" from h)
        (by decide), fun h => absurd (show ("checkbox" : String) = "choice" from h) (by decide)⟩
  · exact ⟨rfl, fun h => absurd (show ("choice" : String) = "radio_group" from h)
      (by decide), fun _ => rfl⟩
  · refine ⟨rfl, ?_, ?_⟩
    · rcases hft : f.ft with _ | s
      · exact fun h => absurd (show ("unknown (None)" : String) = "radio_group" from h)
          (by decide)
      · exact unknown_ne s "radio_group" (by decide)
    · rcases hft : f.ft with _ | s
      · exact fun h => absurd (show ("unknown (None)" : String) = "choice" from h)
          (by decide)
      · exact fun h => absurd h (unknown_ne s "choice" (by decide))

/-- Entries of field_info_by_id carry their key and satisfy the
make_field_dict invariants. -/
theorem initial_field_infos_inv (fields : List (String × FieldRec)) :
    ∀ kv ∈ initial_field_infos fields, kv.2.field_id = kv.1 ∧
      (kv.2.ftype = "radio_group" → kv.2.radio_options.isSome = true) ∧
      (kv.2.ftype = "choice" → kv.2.choice_options.isSome = true) := by
  unfold initial_field_infos
  suffices haux : ∀ (l : List (String × FieldRec)) (acc : List (String × FieldInfo)),
      (∀ kv ∈ acc, kv.2.field_id = kv.1 ∧
        (kv.2.ftype = "radio_group" → kv.2.radio_options.isSome = true) ∧
        (kv.2.ftype = "choice" → kv.2.choice_options.isSome = true)) →
      ∀ kv ∈ l.foldl (fun acc kf =>
        if kf.2.hasKids then acc
        else upsertInfo acc kf.1 (make_field_dict kf.2 kf.1).1) acc,
        kv.2.field_id = kv.1 ∧
        (kv.2.ftype = "radio_group" → kv.2.radio_options.isSome = true) ∧
        (kv.2.ftype = "choice" → kv.2.choice_options.isSome = true) by
    exact haux fields [] (by intro kv h; simp at h)
  intro l
  induction l with
  | nil => intro acc hacc kv hkv; exact hacc kv hkv
  | cons kf rest ih =>
    intro acc hacc kv hkv
    rw [List.foldl_cons] at hkv
    refine ih _ ?_ kv hkv
    intro kv' hkv'
    by_cases hkids : kf.2.hasKids
    · rw [if_pos hkids] at hkv'; exact hacc kv' hkv'
    · rw [if_neg hkids] at hkv'
      rcases mem_upsertInfo hkv' with h | rfl
      · exact hacc kv' h
      · obtain ⟨h1, h2, h3⟩ := make_field_dict_inv kf.2 kf.1
        exact ⟨h1, fun h => absurd h h2, h3⟩

/-- updatePageRect only changes page and rect, and keeps keys. -/
theorem updatePageRect_inv (l : List (String × FieldInfo)) (k : String)
    (p : Nat) (r : Option Rect4)
    (h : ∀ kv ∈ l, kv.2.field_id = kv.1 ∧
      (kv.2.ftype = "radio_group" → kv.2.radio_options.isSome = true) ∧
      (kv.2.ftype = "choice" → kv.2.choice_options.isSome = true)) :
    ∀ kv ∈ updatePageRect l k p r, kv.2.field_id = kv.1 ∧
      (kv.2.ftype = "radio_group" → kv.2.radio_options.isSome = true) ∧
      (kv.2.ftype = "choice" → kv.2.choice_options.isSome = true) := by
  intro kv hkv
  unfold updatePageRect at hkv
  rcases List.mem_map.mp hkv with ⟨kv', hkv', heq⟩
  obtain ⟨h1, h2, h3⟩ := h kv' hkv'
  by_cases hk : kv'.1 = k
  · rw [if_pos hk] at heq
    subst heq
    exact ⟨hk ▸ h1, h2, h3⟩
  · rw [if_neg hk] at heq
    exact heq ▸ ⟨h1, h2, h3⟩

/-- appendRadioOption keeps the radio-entry invariant. -/
theorem appendRadioOption_inv (l : List (String × FieldInfo)) (k v : String)
    (r : Option Rect4)
    (h : ∀ kv ∈ l, kv.2.field_id = kv.1 ∧ kv.2.page.isSome = true ∧
      kv.2.ftype = "radio_group" ∧ kv.2.radio_options.isSome = true) :
    ∀ kv ∈ appendRadioOption l k v r, kv.2.field_id = kv.1 ∧
      kv.2.page.isSome = true ∧ kv.2.ftype = "radio_group" ∧
      kv.2.radio_options.isSome = true := by
  intro kv hkv
  unfold appendRadioOption at hkv
  rcases List.mem_map.mp hkv with ⟨kv', hkv', heq⟩
  obtain ⟨h1, h2, h3, h4⟩ := h kv' hkv'
  by_cases hk : kv'.1 = k
  · rw [if_pos hk] at heq
    subst heq
    exact ⟨hk ▸ h1, h2, h3, rfl⟩
  · rw [if_neg hk] at heq
    exact heq ▸ ⟨h1, h2, h3, h4⟩

/-- One page-scan step preserves the per-entry invariants. -/
theorem scanStep_inv (prn : List String) (pa : Nat × Annot) (st : ScanState)
    (h : ScanInv st) : ScanInv (scanStep prn st pa) := by
  obtain ⟨hinfos, hradios⟩ := h
  cases hfid : get_full_annotation_field_id pa.2.chain with
  | none => simpa only [scanStep, hfid] using ⟨hinfos, hradios⟩
  | some fid =>
    by_cases hlk : (List.lookup fid st.infos).isSome = true
    · simp only [scanStep, hfid, hlk, if_true]
      exact ⟨updatePageRect_inv st.infos fid pa.1 pa.2.rect hinfos, hradios⟩
    · by_cases hprn : prn.contains fid = true
      · cases hap : pa.2.apOn with
        | none =>
          simp only [scanStep, hfid, hlk, hprn, hap, if_false, if_true]
          exact ⟨hinfos, hradios⟩
        | some aps =>
          rcases hflt : aps.filter (fun v => v ≠ "/Off") with _ | ⟨v, _ | ⟨v2, vrest⟩⟩
          · simp only [scanStep, hfid, hlk, hprn, hap, hflt, if_false, if_true]
            exact ⟨hinfos, hradios⟩
          · simp only [scanStep, hfid, hlk, hprn, hap, hflt, if_false, if_true]
            refine ⟨hinfos, ?_⟩
            apply appendRadioOption_inv
            intro kv hkv
            by_cases hlk2 : (List.lookup fid st.radios).isSome = true
            · rw [if_pos hlk2] at hkv
              exact hradios kv hkv
            · rw [if_neg hlk2] at hkv
              rcases List.mem_append.mp hkv with hm | hm
              · exact hradios kv hm
              · simp only [List.mem_singleton] at hm
                subst hm
                exact ⟨rfl, rfl, rfl, rfl⟩
          · simp only [scanStep, hfid, hlk, hprn, hap, hflt, if_false, if_true]
            exact ⟨hinfos, hradios⟩
      · simp only [scanStep, hfid, hlk, hprn, if_false]
        exact ⟨hinfos, hradios⟩

/-- The whole scan preserves the invariants. -/
theorem scan_foldl_inv (prn : List String) (pas : List (Nat × Annot))
    (st : ScanState) (h : ScanInv st) :
    ScanInv (pas.foldl (scanStep prn) st) := by
  induction pas generalizing st with
  | nil => exact h
  | cons pa rest ih => exact ih _ (scanStep_inv prn pa st h)

/-- Every entry of the extracted schema has a resolved page, and
carries the options list its type requires. -/
theorem get_field_info_mem (doc : PdfDoc) (fi : FieldInfo)
    (hfi : fi ∈ get_field_info doc) :
    fi.page.isSome = true ∧
    (fi.ftype = "radio_group" → fi.radio_options.isSome = true) ∧
    (fi.ftype = "choice" → fi.choice_options.isSome = true) := by
  have hinv : ScanInv ((pageAnnots doc).foldl
      (scanStep (possible_radio_names doc.fields))
      ⟨initial_field_infos doc.fields, []⟩) := by
    apply scan_foldl_inv
    constructor
    · exact initial_field_infos_inv doc.fields
    · intro kv hkv; simp at hkv
  set st := (pageAnnots doc).foldl (scanStep (possible_radio_names doc.fields))
    ⟨initial_field_infos doc.fields, []⟩ with hst
  have hout : get_field_info doc = List.insertionSort fieldLE
      (((st.infos.map Prod.snd).filter fun f => f.page.isSome) ++
        st.radios.map Prod.snd) := rfl
  rw [hout] at hfi
  rw [(List.perm_insertionSort fieldLE _).mem_iff] at hfi
  rcases List.mem_append.mp hfi with hm | hm
  · have hpage := (List.mem_filter.mp hm).2
    have hmem := (List.mem_filter.mp hm).1
    rcases List.mem_map.mp hmem with ⟨kv, hkv, heq⟩
    obtain ⟨_, h2, h3⟩ := hinv.1 kv hkv
    exact ⟨by simpa using hpage, heq ▸ h2, heq ▸ h3⟩
  · rcases List.mem_map.mp hm with ⟨kv, hkv, heq⟩
    obtain ⟨_, h2, h3, h4⟩ := hinv.2 kv hkv
    refine ⟨heq ▸ h2, fun _ => heq ▸ h4, fun hc => ?_⟩
    rw [← heq] at hc
    rw [hc] at h3
    exact absurd h3 (by decide)

/-- Entries of the fields_by_ids dictionary come from the schema list
and are keyed by their own field_id. -/
theorem mem_fieldsByIds (schema : List FieldInfo) (kv : String × FieldInfo)
    (h : kv ∈ fieldsByIds schema) : kv.2 ∈ schema ∧ kv.1 = kv.2.field_id := by
  unfold fieldsByIds at h
  suffices haux : ∀ (l : List FieldInfo) (acc : List (String × FieldInfo)),
      (∀ f ∈ l, f ∈ schema) →
      (∀ kv' ∈ acc, kv'.2 ∈ schema ∧ kv'.1 = kv'.2.field_id) →
      ∀ kv' ∈ l.foldl (fun acc f => upsertInfo acc f.field_id f) acc,
        kv'.2 ∈ schema ∧ kv'.1 = kv'.2.field_id by
    exact haux schema [] (fun f hf => hf) (by intro kv' h'; simp at h') kv h
  intro l
  induction l with
  | nil => intro acc _ hacc kv' hkv'; exact hacc kv' hkv'
  | cons f rest ih =>
    intro acc hl hacc kv' hkv'
    rw [List.foldl_cons] at hkv'
    refine ih _ (fun f' hf' => hl f' (List.mem_cons_of_mem f hf')) ?_ kv' hkv'
    intro kv'' hkv''
    rcases mem_upsertInfo hkv'' with hmm | rfl
    · exact hacc kv'' hmm
    · exact ⟨hl f (List.mem_cons_self f rest), rfl⟩

theorem illegal_iff_checkbox (fi : FieldInfo) (v cv uv : String)
    (hck : fi.ftype = "checkbox") (hcv : fi.checked_value = some cv)
    (huv : fi.unchecked_value = some uv) :
    illegalValue fi v ↔ (v ≠ cv ∧ v ≠ uv) := by
  unfold illegalValue
  constructor
  · rintro (⟨_, ha, hb⟩ | ⟨hc, _⟩ | ⟨hc, _⟩)
    · rw [hcv] at ha; rw [huv] at hb
      exact ⟨fun hh => ha (by rw [hh]), fun hh => hb (by rw [hh])⟩
    · rw [hck] at hc; exact absurd hc (by decide)
    · rw [hck] at hc; exact absurd hc (by decide)
  · rintro ⟨ha, hb⟩
    refine Or.inl ⟨hck, ?_, ?_⟩
    · rw [hcv]; intro hh; exact ha (Option.some.inj hh).symm
    · rw [huv]; intro hh; exact hb (Option.some.inj hh).symm

theorem illegal_iff_radio (fi : FieldInfo) (v : String)
    (opts : List (String × Option Rect4)) (hck : fi.ftype = "radio_group")
    (hopts : fi.radio_options = some opts) :
    illegalValue fi v ↔ v ∉ opts.map Prod.fst := by
  unfold illegalValue
  constructor
  · rintro (⟨hc, _⟩ | ⟨_, hm⟩ | ⟨hc, _⟩)
    · rw [hck] at hc; exact absurd hc (by decide)
    · rw [hopts] at hm; simpa using hm
    · rw [hck] at hc; exact absurd hc (by decide)
  · intro hm
    exact Or.inr (Or.inl ⟨hck, by rw [hopts]; simpa using hm⟩)

theorem illegal_iff_choice (fi : FieldInfo) (v : String)
    (opts : List (String × String)) (hck : fi.ftype = "choice")
    (hopts : fi.choice_options = some opts) :
    illegalValue fi v ↔ v ∉ opts.map Prod.fst := by
  unfold illegalValue
  constructor
  · rintro (⟨hc, _⟩ | ⟨hc, _⟩ | ⟨_, hm⟩)
    · rw [hck] at hc; exact absurd hc (by decide)
    · rw [hck] at hc; exact absurd hc (by decide)
    · rw [hopts] at hm; simpa using hm
  · intro hm
    exact Or.inr (Or.inr ⟨hck, by rw [hopts]; simpa using hm⟩)

theorem illegal_iff_other (fi : FieldInfo) (v : String)
    (h1 : fi.ftype ≠ "checkbox") (h2 : fi.ftype ≠ "radio_group")
    (h3 : fi.ftype ≠ "choice") : ¬ illegalValue fi v := by
  unfold illegalValue
  rintro (⟨hc, _⟩ | ⟨hc, _⟩ | ⟨hc, _⟩)
  · exact h1 hc
  · exact h2 hc
  · exact h3 hc

/-- On a well-formed schema dictionary the per-assignment check never
raises, any error it returns names the assignment's field, and it
passes exactly the assignments that are valid in the sense of the
specification. -/
theorem checkAssignment_spec (m : List (String × FieldInfo)) (a : Assignment)
    (hwfm : ∀ kv ∈ m, kv.2.field_id = kv.1 ∧ kv.2.page.isSome = true ∧
      (kv.2.ftype = "checkbox" → kv.2.checked_value.isSome = true ∧
        kv.2.unchecked_value.isSome = true) ∧
      (kv.2.ftype = "radio_group" → kv.2.radio_options.isSome = true) ∧
      (kv.2.ftype = "choice" → kv.2.choice_options.isSome = true)) :
    checkAssignment m a ≠ .error () ∧
    (∀ e, checkAssignment m a = .ok (some e) → errFieldId e = a.field_id) ∧
    (checkAssignment m a = .ok none ↔ ¬ specInvalid m a) := by
  have hspecdef : specInvalid m a = (List.lookup a.field_id m).elim True
      (fun fi => fi.page ≠ some a.page ∨
        a.value.elim False fun v => illegalValue fi v) := rfl
  cases hlk : List.lookup a.field_id m with
  | none =>
    have hca : checkAssignment m a = .ok (some (.invalidFieldId a.field_id)) := by
      unfold checkAssignment; rw [hlk]
    rw [hca]
    refine ⟨by simp, ?_, ?_⟩
    · intro e he
      simp only [Except.ok.injEq, Option.some.injEq] at he
      subst he; rfl
    · constructor
      · intro hcontra; simp at hcontra
      · intro hn
        exact absurd (by rw [hspecdef, hlk]; exact trivial) hn
  | some fi =>
    obtain ⟨hkey, hpage, hcb, hrg, hch⟩ := hwfm (a.field_id, fi) (lookup_mem hlk)
    dsimp only at hkey hpage hcb hrg hch
    obtain ⟨p, hp⟩ := Option.isSome_iff_exists.mp hpage
    have hspec : specInvalid m a ↔ (fi.page ≠ some a.page ∨
        a.value.elim False fun v => illegalValue fi v) := by
      rw [hspecdef, hlk]
      exact Iff.rfl
    by_cases hpg : a.page ≠ p
    · have hca : checkAssignment m a =
          .ok (some (.pageMismatch a.field_id a.page p)) := by
        unfold checkAssignment
        rw [hlk]; dsimp only; rw [hp]; dsimp only; rw [if_pos hpg]
      rw [hca]
      refine ⟨by simp, ?_, ?_⟩
      · intro e he
        simp only [Except.ok.injEq, Option.some.injEq] at he
        subst he; rfl
      · constructor
        · intro hcontra; simp at hcontra
        · intro hn
          refine absurd (hspec.mpr (Or.inl ?_)) hn
          rw [hp]
          intro hcontra
          exact hpg (Option.some.inj hcontra).symm
    · push_neg at hpg
      subst hpg
      cases hv : a.value with
      | none =>
        have hca : checkAssignment m a = .ok none := by
          unfold checkAssignment
          rw [hlk]; dsimp only; rw [hp]; dsimp only
          rw [if_neg (by simp), hv]
        rw [hca]
        refine ⟨by simp, by intro e he; simp at he, ?_⟩
        constructor
        · intro _
          rw [hspec, hv]
          rintro (hcon | hcon)
          · rw [hp] at hcon; exact hcon rfl
          · exact hcon
        · intro _; rfl
      | some v =>
        have hca : checkAssignment m a = validation_error_for_field_value fi v := by
          unfold checkAssignment
          rw [hlk]; dsimp only; rw [hp]; dsimp only
          rw [if_neg (by simp), hv]
        rw [hca]
        have hspec2 : specInvalid m a ↔ illegalValue fi v := by
          rw [hspec, hv]
          constructor
          · rintro (hcon | hcon)
            · rw [hp] at hcon; exact absurd rfl hcon
            · exact hcon
          · intro h; exact Or.inr h
        by_cases hck : fi.ftype = "checkbox"
        · obtain ⟨hcvS, huvS⟩ := hcb hck
          obtain ⟨cv, hcveq⟩ := Option.isSome_iff_exists.mp hcvS
          obtain ⟨uv, huveq⟩ := Option.isSome_iff_exists.mp huvS
          have hval : validation_error_for_field_value fi v =
              if v ≠ cv ∧ v ≠ uv then
                .ok (some (.illegalCheckbox v fi.field_id cv uv))
              else .ok none := by
            unfold validation_error_for_field_value
            rw [if_pos hck, hcveq, huveq]
          rw [hval]
          have hill := illegal_iff_checkbox fi v cv uv hck hcveq huveq
          by_cases hcond : v ≠ cv ∧ v ≠ uv
          · rw [if_pos hcond]
            refine ⟨by simp, ?_, ?_⟩
            · intro e he
              simp only [Except.ok.injEq, Option.some.injEq] at he
              subst he
              exact hkey
            · constructor
              · intro hcontra; simp at hcontra
              · intro hn; exact absurd (hspec2.mpr (hill.mpr hcond)) hn
          · rw [if_neg hcond]
            refine ⟨by simp, by intro e he; simp at he, ?_⟩
            constructor
            · intro _
              rw [hspec2, hill]
              exact hcond
            · intro _; rfl
        · by_cases hrgq : fi.ftype = "radio_group"
          · obtain ⟨opts, hopts⟩ := Option.isSome_iff_exists.mp (hrg hrgq)
            have hval : validation_error_for_field_value fi v =
                if ¬ (opts.map Prod.fst).contains v then
                  .ok (some (.illegalRadio v fi.field_id (opts.map Prod.fst)))
                else .ok none := by
              unfold validation_error_for_field_value
              rw [if_neg hck, if_pos hrgq, hopts]
            rw [hval]
            have hill := illegal_iff_radio fi v opts hrgq hopts
            have hctn : (opts.map Prod.fst).contains v = true ↔
                v ∈ opts.map Prod.fst := by simp
            by_cases hcond : (opts.map Prod.fst).contains v = true
            · rw [if_neg (not_not_intro hcond)]
              refine ⟨by simp, by intro e he; simp at he, ?_⟩
              constructor
              · intro _
                rw [hspec2, hill]
                intro hmem
                exact hmem (hctn.mp hcond)
              · intro _; rfl
            · rw [if_pos hcond]
              refine ⟨by simp, ?_, ?_⟩
              · intro e he
                simp only [Except.ok.injEq, Option.some.injEq] at he
                subst he
                exact hkey
              · constructor
                · intro hcontra; simp at hcontra
                · intro hn
                  refine absurd (hspec2.mpr (hill.mpr fun hmem => ?_)) hn
                  exact hcond (hctn.mpr hmem)
          · by_cases hchq : fi.ftype = "choice"
            · obtain ⟨opts, hopts⟩ := Option.isSome_iff_exists.mp (hch hchq)
              have hval : validation_error_for_field_value fi v =
                  if ¬ (opts.map Prod.fst).contains v then
                    .ok (some (.illegalChoice v fi.field_id (opts.map Prod.fst)))
                  else .ok none := by
                unfold validation_error_for_field_value
                rw [if_neg hck, if_neg hrgq, if_pos hchq, hopts]
              rw [hval]
              have hill := illegal_iff_choice fi v opts hchq hopts
              have hctn : (opts.map Prod.fst).contains v = true ↔
                  v ∈ opts.map Prod.fst := by simp
              by_cases hcond : (opts.map Prod.fst).contains v = true
              · rw [if_neg (not_not_intro hcond)]
                refine ⟨by simp, by intro e he; simp at he, ?_⟩
                constructor
                · intro _
                  rw [hspec2, hill]
                  intro hmem
                  exact hmem (hctn.mp hcond)
                · intro _; rfl
              · rw [if_pos hcond]
                refine ⟨by simp, ?_, ?_⟩
                · intro e he
                  simp only [Except.ok.injEq, Option.some.injEq] at he
                  subst he
                  exact hkey
                · constructor
                  · intro hcontra; simp at hcontra
                  · intro hn
                    refine absurd (hspec2.mpr (hill.mpr fun hmem => ?_)) hn
                    exact hcond (hctn.mpr hmem)
            · have hval : validation_error_for_field_value fi v = .ok none := by
                unfold validation_error_for_field_value
                rw [if_neg hck, if_neg hrgq, if_neg hchq]
              rw [hval]
              refine ⟨by simp, by intro e he; simp at he, ?_⟩
              constructor
              · intro _
                rw [hspec2]
                exact illegal_iff_other fi v hck hrgq hchq
              · intro _; rfl

/-- When no per-assignment check raises, the validation fold returns
the accumulated error list: one entry per invalid assignment, in
order. -/
theorem validatePhase_ok_aux (m : List (String × FieldInfo)) :
    ∀ (assigns : List Assignment) (errs0 : List FillErr),
      (∀ a ∈ assigns, checkAssignment m a ≠ .error ()) →
      assigns.foldlM (fun errs a =>
        (checkAssignment m a).map fun e => errs ++ e.toList) errs0 =
        .ok (errs0 ++ assigns.filterMap (assignError m)) := by
  intro assigns
  induction assigns with
  | nil => intro errs0 _; rw [List.foldlM_nil, List.filterMap_nil, List.append_nil]; rfl
  | cons a rest ih =>
    intro errs0 h
    rw [List.foldlM_cons]
    cases hca : checkAssignment m a with
    | error e => cases e; exact absurd hca (h a (List.mem_cons_self a rest))
    | ok eopt =>
      have h2 : assignError m a = eopt := by unfold assignError; rw [hca]
      have hstep : Except.map (fun e => errs0 ++ e.toList)
          (Except.ok (ε := Unit) eopt) = Except.ok (errs0 ++ eopt.toList) := rfl
      rw [hstep, List.filterMap_cons, h2]
      have hih := ih (errs0 ++ eopt.toList)
        (fun b hb => h b (List.mem_cons_of_mem a hb))
      cases eopt with
      | none => simpa using hih
      | some e => simpa using hih

theorem validatePhase_ok (m : List (String × FieldInfo))
    (assigns : List Assignment)
    (h : ∀ a ∈ assigns, checkAssignment m a ≠ .error ()) :
    validatePhase m assigns = .ok (assigns.filterMap (assignError m)) := by
  have haux := validatePhase_ok_aux m assigns [] h
  simpa using haux

/-- C1: on a schema whose checkbox entries carry both toggle values,
any assignment set with at least one invalid assignment (unknown
field_id, page mismatch, or type-illegal value) makes fill_pdf_fields
end in validationFailure with a nonempty error list containing an error
naming each invalid assignment's field, and no writer stage is reached
(the outcome is never success, so nothing is mutated or written). -/
theorem validate_before_mutate (doc : PdfDoc) (assigns : List Assignment)
    (hwf : ∀ fi ∈ get_field_info doc, fi.ftype = "checkbox" →
      fi.checked_value.isSome = true ∧ fi.unchecked_value.isSome = true)
    (hinv : ∃ a ∈ assigns, specInvalid (fieldsByIds (get_field_info doc)) a) :
    ∃ errs, fill_pdf_fields doc assigns = .validationFailure errs ∧
      errs ≠ [] ∧
      (∀ a ∈ assigns, specInvalid (fieldsByIds (get_field_info doc)) a →
        ∃ e ∈ errs, errFieldId e = a.field_id) ∧
      ∀ ws, fill_pdf_fields doc assigns ≠ .success ws := by
  set m := fieldsByIds (get_field_info doc) with hm
  have hwfm : ∀ kv ∈ m, kv.2.field_id = kv.1 ∧ kv.2.page.isSome = true ∧
      (kv.2.ftype = "checkbox" → kv.2.checked_value.isSome = true ∧
        kv.2.unchecked_value.isSome = true) ∧
      (kv.2.ftype = "radio_group" → kv.2.radio_options.isSome = true) ∧
      (kv.2.ftype = "choice" → kv.2.choice_options.isSome = true) := by
    intro kv hkv
    obtain ⟨hmem, hk⟩ := mem_fieldsByIds _ kv hkv
    obtain ⟨hpg, hrg2, hch2⟩ := get_field_info_mem doc kv.2 hmem
    exact ⟨hk.symm, hpg, hwf kv.2 hmem, hrg2, hch2⟩
  have hnoerr : ∀ a ∈ assigns, checkAssignment m a ≠ .error () :=
    fun a _ => (checkAssignment_spec m a hwfm).1
  have hok : validatePhase m assigns = .ok (assigns.filterMap (assignError m)) :=
    validatePhase_ok m assigns hnoerr
  have hinv_err : ∀ a ∈ assigns, specInvalid m a →
      ∃ e ∈ assigns.filterMap (assignError m), errFieldId e = a.field_id := by
    intro a ha hspec_a
    obtain ⟨hne, hname, hiff⟩ := checkAssignment_spec m a hwfm
    cases hca : checkAssignment m a with
    | error e => cases e; exact absurd hca hne
    | ok eopt =>
      cases eopt with
      | none => exact absurd hspec_a (hiff.mp hca)
      | some e =>
        refine ⟨e, ?_, hname e hca⟩
        exact List.mem_filterMap.mpr ⟨a, ha, by unfold assignError; rw [hca]⟩
  obtain ⟨a0, ha0, hspec0⟩ := hinv
  obtain ⟨e0, he0, _⟩ := hinv_err a0 ha0 hspec0
  have herrsne : assigns.filterMap (assignError m) ≠ [] := by
    intro hnil
    rw [hnil] at he0
    simp at he0
  have hfill : fill_pdf_fields doc assigns =
      .validationFailure (assigns.filterMap (assignError m)) := by
    have hr : fill_pdf_fields doc assigns =
        (match validatePhase m assigns with
          | .error _ => FillOutcome.keyErrorAbort
          | .ok es =>
            if es.isEmpty then FillOutcome.success (groupByPage assigns)
            else FillOutcome.validationFailure es) := rfl
    rw [hr, hok]
    dsimp only
    rw [if_neg fun hEmp => herrsne (List.isEmpty_iff.mp hEmp)]
  refine ⟨assigns.filterMap (assignError m), hfill, herrsne, hinv_err, ?_⟩
  intro ws hcontra
  rw [hfill] at hcontra
  exact FillOutcome.noConfusion hcontra

set_option maxRecDepth 100000 in
theorem validate_before_mutate_witness :
    ∃ errs, fill_pdf_fields
        ⟨[("name", ⟨some "/Tx", false, [], []⟩)],
          [[⟨[some "name"], none, some ⟨0, 0, 10, 10⟩⟩]]⟩
        [⟨"nope", 1, some "x"⟩] = .validationFailure errs ∧
      errs ≠ [] ∧
      (∀ a ∈ [(⟨"nope", 1, some "x"⟩ : Assignment)],
        specInvalid (fieldsByIds (get_field_info
          ⟨[("name", ⟨some "/Tx", false, [], []⟩)],
            [[⟨[some "name"], none, some ⟨0, 0, 10, 10⟩⟩]]⟩)) a →
        ∃ e ∈ errs, errFieldId e = a.field_id) ∧
      ∀ ws, fill_pdf_fields
        ⟨[("name", ⟨some "/Tx", false, [], []⟩)],
          [[⟨[some "name"], none, some ⟨0, 0, 10, 10⟩⟩]]⟩
        [⟨"nope", 1, some "x"⟩] ≠ .success ws :=
  validate_before_mutate
    ⟨[("name", ⟨some "/Tx", false, [], []⟩)],
      [[⟨[some "name"], none, some ⟨0, 0, 10, 10⟩⟩]]⟩
    [⟨"nope", 1, some "x"⟩]
    (by decide)
    ⟨⟨"nope", 1, some "x"⟩, by decide, by decide⟩

/-- A key is absent from a string dictionary exactly when no entry
carries it. -/
theorem lookup_eq_none_iff {β : Type} (l : List (String × β)) (g : String) :
    List.lookup g l = none ↔ ∀ kv ∈ l, (g == kv.1) = false := by
  induction l with
  | nil => simp
  | cons kv t ih =>
    obtain ⟨k, v⟩ := kv
    by_cases hk : (g == k) = true
    · simp only [List.lookup, hk]
      constructor
      · intro h; cases h
      · intro h
        have := h (k, v) (List.mem_cons_self _ _)
        rw [hk] at this
        cases this
    · rw [Bool.not_eq_true] at hk
      simp only [List.lookup, hk]
      constructor
      · intro h kv' hkv'
        rcases List.mem_cons.mp hkv' with rfl | hmem
        · exact hk
        · exact ih.mp h kv' hmem
      · intro h
        exact ih.mpr fun kv' hkv' => h kv' (List.mem_cons_of_mem _ hkv')

/-- A key is absent exactly when filtering for it gives nothing. -/
theorem lookup_none_iff_filter_nil {β : Type} (l : List (String × β))
    (g : String) :
    List.lookup g l = none ↔ l.filter (fun kv => kv.1 == g) = [] := by
  rw [lookup_eq_none_iff, List.filter_eq_nil_iff]
  constructor
  · intro h kv hkv
    rw [Bool.not_eq_true, beq_eq_false_iff_ne]
    have := h kv hkv
    rw [beq_eq_false_iff_ne] at this
    exact fun hc => this hc.symm
  · intro h kv hkv
    rw [beq_eq_false_iff_ne]
    have := h kv hkv
    rw [Bool.not_eq_true, beq_eq_false_iff_ne] at this
    exact fun hc => this hc.symm

theorem lookup_isSome_iff_filter_ne_nil {β : Type} (l : List (String × β))
    (g : String) :
    (List.lookup g l).isSome = true ↔ l.filter (fun kv => kv.1 == g) ≠ [] := by
  cases hlk : List.lookup g l with
  | none =>
    have hfil := (lookup_none_iff_filter_nil l g).mp hlk
    rw [hfil]
    simp
  | some e =>
    constructor
    · intro _ hnil
      have hcontra := (lookup_none_iff_filter_nil l g).mpr hnil
      rw [hlk] at hcontra
      cases hcontra
    · intro _; rfl

/-- Appending an option under a different key leaves the g-entries
untouched. -/
theorem filter_g_appendRadioOption_ne (l : List (String × FieldInfo))
    (k g v : String) (r : Option Rect4) (hne : k ≠ g) :
    (appendRadioOption l k v r).filter (fun kv => kv.1 == g) =
      l.filter (fun kv => kv.1 == g) := by
  have hfalse : (k == g) = false := beq_eq_false_iff_ne.mpr hne
  unfold appendRadioOption
  induction l with
  | nil => rfl
  | cons kv t ih =>
    rw [List.map_cons, List.filter_cons, List.filter_cons]
    by_cases hk : kv.1 = k
    · rw [if_pos hk]
      dsimp only
      simp only [hk, hfalse, Bool.false_eq_true, if_false]
      exact ih
    · rw [if_neg hk]
      rw [ih]

/-- Appending an option under key g rewrites exactly the g-entries. -/
theorem filter_g_appendRadioOption_eq (l : List (String × FieldInfo))
    (g v : String) (r : Option Rect4) :
    (appendRadioOption l g v r).filter (fun kv => kv.1 == g) =
      (l.filter (fun kv => kv.1 == g)).map fun kv =>
        (kv.1, { kv.2 with radio_options := some ((kv.2.radio_options.getD []) ++ [(v, r)]) }) := by
  have htrue : (g == g) = true := beq_iff_eq.mpr rfl
  unfold appendRadioOption
  induction l with
  | nil => rfl
  | cons kv t ih =>
    rw [List.map_cons, List.filter_cons, List.filter_cons]
    by_cases hk : kv.1 = g
    · rw [if_pos hk]
      dsimp only
      simp only [hk, htrue, if_true, List.map_cons]
      rw [ih]
    · rw [if_neg hk]
      have hfalse2 : (kv.1 == g) = false := beq_eq_false_iff_ne.mpr hk
      simp only [hfalse2, Bool.false_eq_true, if_false]
      exact ih

/-- Appending a fresh entry under a different key leaves the g-entries
untouched. -/
theorem filter_g_append_ne (l : List (String × FieldInfo)) (k g : String)
    (x : FieldInfo) (hne : k ≠ g) :
    (l ++ [(k, x)]).filter (fun kv => kv.1 == g) =
      l.filter (fun kv => kv.1 == g) := by
  rw [List.filter_append]
  have h1 : List.filter (fun kv => kv.1 == g) [(k, x)] = [] := by
    simp [beq_eq_false_iff_ne.mpr hne]
  rw [h1, List.append_nil]

/-- Appending a fresh entry under key g puts it at the end of the
g-entries. -/
theorem filter_g_append_eq (l : List (String × FieldInfo)) (g : String)
    (x : FieldInfo) :
    (l ++ [(g, x)]).filter (fun kv => kv.1 == g) =
      l.filter (fun kv => kv.1 == g) ++ [(g, x)] := by
  rw [List.filter_append]
  have h1 : List.filter (fun kv => kv.1 == g) [(g, x)] = [(g, x)] := by
    simp
  rw [h1]

/-- updatePageRect does not create a key. -/
theorem lookup_g_updatePageRect_none (l : List (String × FieldInfo))
    (k : String) (p : Nat) (r : Option Rect4) (g : String)
    (h : List.lookup g l = none) :
    List.lookup g (updatePageRect l k p r) = none := by
  rw [lookup_eq_none_iff] at h ⊢
  intro kv hkv
  unfold updatePageRect at hkv
  rcases List.mem_map.mp hkv with ⟨kv', hkv', heq⟩
  by_cases hk : kv'.1 = k
  · rw [if_pos hk] at heq
    subst heq
    dsimp only
    rw [← hk]
    exact h kv' hkv'
  · rw [if_neg hk] at heq
    subst heq
    exact h kv' hkv'

/-- If an object qualifies for group g, its appearance map and state
filter take the singleton shape. -/
theorem radioOnValue_some_shape (a : Annot) (v : String)
    (hro : radioOnValue a = some v) :
    ∃ aps, a.apOn = some aps ∧ aps.filter (fun x => x ≠ "/Off") = [v] := by
  unfold radioOnValue at hro
  cases hap : a.apOn with
  | none => rw [hap] at hro; cases hro
  | some aps =>
    rw [hap] at hro
    dsimp only at hro
    rcases hflt : aps.filter (fun x => x ≠ "/Off") with _ | ⟨w, _ | ⟨w2, wrest⟩⟩ <;>
      rw [hflt] at hro
    · cases hro
    · exact ⟨aps, rfl, by injection hro with hv; exact hv ▸ hflt⟩
    · cases hro

/-- One scan step tracks the specification step on the g-projection:
the leaf dictionary never acquires key g, and the g-entries of the
radio dictionary follow radioSpecStep. -/
theorem scanStep_radio_step (prn : List String) (g : String)
    (hprn : prn.contains g = true) (pa : Nat × Annot) (st : ScanState)
    (e? : Option FieldInfo)
    (h1 : List.lookup g st.infos = none)
    (h2 : st.radios.filter (fun kv => kv.1 == g) =
      (e?.map fun e => (g, e)).toList) :
    List.lookup g (scanStep prn st pa).infos = none ∧
    (scanStep prn st pa).radios.filter (fun kv => kv.1 == g) =
      ((radioSpecStep g e? pa).map fun e => (g, e)).toList := by
  cases hfid : get_full_annotation_field_id pa.2.chain with
  | none =>
    have hspec : radioSpecStep g e? pa = e? := by
      unfold radioSpecStep
      rw [hfid, if_neg (by simp)]
    rw [hspec]
    simp only [scanStep, hfid]
    exact ⟨h1, h2⟩
  | some fid =>
    by_cases hfg : fid = g
    · rw [hfg] at hfid
      have hlkb : (List.lookup g st.infos).isSome = false := by rw [h1]; rfl
      cases hro : radioOnValue pa.2 with
      | none =>
        have hspec : radioSpecStep g e? pa = e? := by
          unfold radioSpecStep
          rw [if_pos hfid, hro]
        rw [hspec]
        cases hap : pa.2.apOn with
        | none =>
          simp only [scanStep, hfid, hlkb, Bool.false_eq_true, if_false,
            hprn, if_true, hap]
          exact ⟨h1, h2⟩
        | some aps =>
          have hro2 : (match aps.filter (fun x => x ≠ "/Off") with
              | [w] => some w
              | _ => none) = (none : Option String) := by
            unfold radioOnValue at hro
            rw [hap] at hro
            dsimp only at hro
            exact hro
          rcases hflt : aps.filter (fun x => x ≠ "/Off")
            with _ | ⟨w, _ | ⟨w2, wrest⟩⟩
          · simp only [scanStep, hfid, hlkb, Bool.false_eq_true, if_false,
              hprn, if_true, hap, hflt]
            exact ⟨h1, h2⟩
          · rw [hflt] at hro2; cases hro2
          · simp only [scanStep, hfid, hlkb, Bool.false_eq_true, if_false,
              hprn, if_true, hap, hflt]
            exact ⟨h1, h2⟩
      | some v =>
        obtain ⟨aps, hap, hflt⟩ := radioOnValue_some_shape pa.2 v hro
        have hspec : radioSpecStep g e? pa = (match e? with
            | none => some ⟨g, "radio_group", none, none, none, some [(v, pa.2.rect)], some pa.1, none⟩
            | some e => some { e with radio_options := some ((e.radio_options.getD []) ++ [(v, pa.2.rect)]) }) := by
          unfold radioSpecStep
          rw [if_pos hfid, hro]
          cases e? <;> rfl
        rw [hspec]
        simp only [scanStep, hfid, hlkb, Bool.false_eq_true, if_false,
          hprn, if_true, hap, hflt]
        refine ⟨h1, ?_⟩
        cases e? with
        | none =>
          have hfilnil : st.radios.filter (fun kv => kv.1 == g) = [] := by
            simpa using h2
          have hlkrb : (List.lookup g st.radios).isSome = false := by
            rw [(lookup_none_iff_filter_nil st.radios g).mpr hfilnil]; rfl
          simp only [hlkrb, Bool.false_eq_true, if_false]
          rw [filter_g_appendRadioOption_eq, filter_g_append_eq, hfilnil]
          rfl
        | some e =>
          have hfil : st.radios.filter (fun kv => kv.1 == g) = [(g, e)] := by
            simpa using h2
          have hlkr : (List.lookup g st.radios).isSome = true := by
            rw [lookup_isSome_iff_filter_ne_nil, hfil]; simp
          simp only [hlkr, if_true]
          rw [filter_g_appendRadioOption_eq, hfil]
          rfl
    · have hspec : radioSpecStep g e? pa = e? := by
        unfold radioSpecStep
        rw [hfid, if_neg (by simp [hfg])]
      rw [hspec]
      by_cases hlk : (List.lookup fid st.infos).isSome = true
      · simp only [scanStep, hfid, hlk, if_true]
        exact ⟨lookup_g_updatePageRect_none st.infos fid pa.1 pa.2.rect g h1, h2⟩
      · have hlkb : (List.lookup fid st.infos).isSome = false := by
          rw [← Bool.not_eq_true]; exact hlk
        by_cases hpr : prn.contains fid = true
        · cases hap : pa.2.apOn with
          | none =>
            simp only [scanStep, hfid, hlkb, Bool.false_eq_true, if_false,
              hpr, if_true, hap]
            exact ⟨h1, h2⟩
          | some aps =>
            rcases hflt : aps.filter (fun x => x ≠ "/Off")
              with _ | ⟨w, _ | ⟨w2, wrest⟩⟩
            · simp only [scanStep, hfid, hlkb, Bool.false_eq_true, if_false,
                hpr, if_true, hap, hflt]
              exact ⟨h1, h2⟩
            · simp only [scanStep, hfid, hlkb, Bool.false_eq_true, if_false,
                hpr, if_true, hap, hflt]
              refine ⟨h1, ?_⟩
              rw [filter_g_appendRadioOption_ne _ _ _ _ _ hfg]
              by_cases hlkr : (List.lookup fid st.radios).isSome = true
              · rw [if_pos hlkr]
                exact h2
              · rw [if_neg hlkr, filter_g_append_ne _ _ _ _ hfg]
                exact h2
            · simp only [scanStep, hfid, hlkb, Bool.false_eq_true, if_false,
                hpr, if_true, hap, hflt]
              exact ⟨h1, h2⟩
        · have hprb : prn.contains fid = false := by
            rw [← Bool.not_eq_true]; exact hpr
          simp only [scanStep, hfid, hlkb, Bool.false_eq_true, if_false, hprb]
          exact ⟨h1, h2⟩

/-- The whole scan tracks the specification fold on the g-projection. -/
theorem scan_radio_coupling (prn : List String) (g : String)
    (hprn : prn.contains g = true) :
    ∀ (L : List (Nat × Annot)) (st : ScanState) (e? : Option FieldInfo),
      List.lookup g st.infos = none →
      st.radios.filter (fun kv => kv.1 == g) = (e?.map fun e => (g, e)).toList →
      List.lookup g (L.foldl (scanStep prn) st).infos = none ∧
      (L.foldl (scanStep prn) st).radios.filter (fun kv => kv.1 == g) =
        ((L.foldl (radioSpecStep g) e?).map fun e => (g, e)).toList := by
  intro L
  induction L with
  | nil => intro st e? h1 h2; exact ⟨h1, h2⟩
  | cons pa rest ih =>
    intro st e? h1 h2
    rw [List.foldl_cons, List.foldl_cons]
    obtain ⟨h1a, h2a⟩ := scanStep_radio_step prn g hprn pa st e? h1 h2
    exact ih _ _ h1a h2a

/-- Folding the specification step from an existing entry appends the
options contributed by the processed objects, in order. -/
theorem radioSpec_foldl_some (g : String) :
    ∀ (L : List (Nat × Annot)) (e : FieldInfo)
      (opts0 : List (String × Option Rect4)),
      e.radio_options = some opts0 →
      (∀ pa ∈ L, get_full_annotation_field_id pa.2.chain = some g →
        (radioOnValue pa.2).isSome = true) →
      L.foldl (radioSpecStep g) (some e) =
        some { e with radio_options := some (opts0 ++ L.filterMap (radioOptOf g)) } := by
  intro L
  induction L with
  | nil =>
    intro e opts0 hopts _
    rw [List.foldl_nil, List.filterMap_nil, List.append_nil, ← hopts]
  | cons pa rest ih =>
    intro e opts0 hopts hq
    rw [List.foldl_cons, List.filterMap_cons]
    by_cases hfid : get_full_annotation_field_id pa.2.chain = some g
    · have hsome := hq pa (List.mem_cons_self _ _) hfid
      obtain ⟨v, hv⟩ := Option.isSome_iff_exists.mp hsome
      have hbeq : (get_full_annotation_field_id pa.2.chain == some g) = true := by
        rw [hfid]; exact beq_self_eq_true _
      have hstep : radioSpecStep g (some e) pa =
          some { e with radio_options := some ((e.radio_options.getD []) ++ [(v, pa.2.rect)]) } := by
        unfold radioSpecStep
        rw [if_pos hfid, hv]
      have hopt : radioOptOf g pa = some (v, pa.2.rect) := by
        unfold radioOptOf
        rw [if_pos hbeq, hv]
        rfl
      rw [hstep, hopt]
      rw [ih { e with radio_options := some ((e.radio_options.getD []) ++ [(v, pa.2.rect)]) }
        (opts0 ++ [(v, pa.2.rect)]) (by rw [hopts]; rfl)
        (fun pa2 h2 => hq pa2 (List.mem_cons_of_mem _ h2) )]
      rw [hopts]
      simp [List.append_assoc]
    · have hstep : radioSpecStep g (some e) pa = some e := by
        unfold radioSpecStep
        rw [if_neg hfid]
      have hopt : radioOptOf g pa = none := by
        unfold radioOptOf
        rw [if_neg fun hc => hfid (by exact beq_iff_eq.mp hc)]
      rw [hstep, hopt]
      exact ih e opts0 hopts (fun pa2 h2 => hq pa2 (List.mem_cons_of_mem _ h2))

/-- Folding the specification step from nothing produces exactly one
entry: absent when no object names g, else carrying the first naming
object's page and every contributed option in scan order. -/
theorem radioSpec_foldl_none (g : String) :
    ∀ L : List (Nat × Annot),
      (∀ pa ∈ L, get_full_annotation_field_id pa.2.chain = some g →
        (radioOnValue pa.2).isSome = true) →
      L.foldl (radioSpecStep g) none =
        (match L.filter (fun pa =>
            get_full_annotation_field_id pa.2.chain == some g) with
          | [] => none
          | pa1 :: _ => some ⟨g, "radio_group", none, none, none,
              some (L.filterMap (radioOptOf g)), some pa1.1, none⟩) := by
  intro L
  induction L with
  | nil => intro _; rfl
  | cons pa rest ih =>
    intro hq
    rw [List.foldl_cons, List.filter_cons, List.filterMap_cons]
    by_cases hfid : get_full_annotation_field_id pa.2.chain = some g
    · have hsome := hq pa (List.mem_cons_self _ _) hfid
      obtain ⟨v, hv⟩ := Option.isSome_iff_exists.mp hsome
      have hbeq : (get_full_annotation_field_id pa.2.chain == some g) = true := by
        rw [hfid]; exact beq_self_eq_true _
      have hstep : radioSpecStep g none pa = some ⟨g, "radio_group", none,
          none, none, some [(v, pa.2.rect)], some pa.1, none⟩ := by
        unfold radioSpecStep
        rw [if_pos hfid, hv]
      have hopt : radioOptOf g pa = some (v, pa.2.rect) := by
        unfold radioOptOf
        rw [if_pos hbeq, hv]
        rfl
      rw [hstep, hopt]
      rw [radioSpec_foldl_some g rest ⟨g, "radio_group", none, none, none,
        some [(v, pa.2.rect)], some pa.1, none⟩ [(v, pa.2.rect)] rfl
        (fun pa2 h2 => hq pa2 (List.mem_cons_of_mem _ h2))]
      simp only [hbeq, if_true]
      rfl
    · have hbeq : (get_full_annotation_field_id pa.2.chain == some g) = false := by
        rw [beq_eq_false_iff_ne]; exact hfid
      have hstep : radioSpecStep g none pa = none := by
        unfold radioSpecStep
        rw [if_neg hfid]
      have hopt : radioOptOf g pa = none := by
        unfold radioOptOf
        simp only [hbeq, Bool.false_eq_true, if_false]
      rw [hstep, hopt]
      simp only [hbeq, Bool.false_eq_true, if_false]
      exact ih (fun pa2 h2 => hq pa2 (List.mem_cons_of_mem _ h2))

/-- In an association list with distinct keys, any entry keyed g is the
known one. -/
theorem nodup_key_forall {β : Type} (g : String) (v : β) :
    ∀ l : List (String × β), (l.map Prod.fst).Nodup → (g, v) ∈ l →
      ∀ kv ∈ l, kv.1 = g → kv = (g, v) := by
  intro l
  induction l with
  | nil => intro _ h; cases h
  | cons a t ih =>
    intro hnd hg kv hkv hk
    rw [List.map_cons, List.nodup_cons] at hnd
    rcases List.mem_cons.mp hg with heq | hgt
    · rcases List.mem_cons.mp hkv with rfl | hkt
      · exact heq.symm
      · refine absurd (hk ▸ List.mem_map_of_mem Prod.fst hkt) ?_
        have hna := hnd.1
        rw [← heq] at hna
        exact hna
    · rcases List.mem_cons.mp hkv with rfl | hkt
      · have hna := hnd.1
        rw [hk] at hna
        exact absurd (List.mem_map_of_mem Prod.fst hgt) hna
      · exact ih hnd.2 hgt kv hkt hk

/-- upsertInfo under another key does not create key g. -/
theorem lookup_g_upsertInfo_none (l : List (String × FieldInfo)) (k g : String)
    (v : FieldInfo) (hne : k ≠ g) (h : List.lookup g l = none) :
    List.lookup g (upsertInfo l k v) = none := by
  unfold upsertInfo
  by_cases hlk : (List.lookup k l).isSome = true
  · rw [if_pos hlk]
    rw [lookup_eq_none_iff] at h ⊢
    intro kv hkv
    rcases List.mem_map.mp hkv with ⟨kv2, hkv2, heq⟩
    by_cases hk2 : kv2.1 = k
    · rw [if_pos hk2] at heq
      subst heq
      exact beq_eq_false_iff_ne.mpr fun hc => hne hc.symm
    · rw [if_neg hk2] at heq
      subst heq
      exact h kv2 hkv2
  · rw [if_neg hlk]
    rw [lookup_eq_none_iff] at h ⊢
    intro kv hkv
    rcases List.mem_append.mp hkv with hm | hm
    · exact h kv hm
    · rw [List.mem_singleton] at hm
      subst hm
      exact beq_eq_false_iff_ne.mpr fun hc => hne hc.symm

/-- When every field definition named g is a container, the leaf-field
dictionary never acquires key g. -/
theorem lookup_g_initial_aux (g : String) :
    ∀ (fields : List (String × FieldRec)) (acc : List (String × FieldInfo)),
      (∀ kf ∈ fields, kf.1 = g → kf.2.hasKids = true) →
      List.lookup g acc = none →
      List.lookup g (fields.foldl (fun acc kf =>
        if kf.2.hasKids then acc
        else upsertInfo acc kf.1 (make_field_dict kf.2 kf.1).1) acc) = none := by
  intro fields
  induction fields with
  | nil => intro acc _ h; exact h
  | cons kf t ih =>
    intro acc hkids hacc
    rw [List.foldl_cons]
    by_cases hk : kf.2.hasKids = true
    · rw [if_pos hk]
      exact ih _ (fun kf2 h2 => hkids kf2 (List.mem_cons_of_mem _ h2)) hacc
    · rw [if_neg hk]
      have hne : kf.1 ≠ g := fun hc => hk (hkids kf (List.mem_cons_self _ _) hc)
      exact ih _ (fun kf2 h2 => hkids kf2 (List.mem_cons_of_mem _ h2))
        (lookup_g_upsertInfo_none acc kf.1 g _ hne hacc)

/-- A container button field's name is a candidate radio-group name. -/
theorem contains_possible_radio_names (fields : List (String × FieldRec))
    (g : String) (frec : FieldRec) (hg : (g, frec) ∈ fields)
    (hkids : frec.hasKids = true) (hbtn : frec.ft = some "/Btn") :
    (possible_radio_names fields).contains g = true := by
  have hmem : g ∈ possible_radio_names fields := by
    unfold possible_radio_names
    rw [List.mem_filterMap]
    exact ⟨(g, frec), hg, by rw [if_pos ⟨hkids, hbtn⟩]⟩
  exact List.elem_iff.mpr hmem

/-- filterMap with a total function preserves length. -/
theorem length_filterMap_of_isSome {α β : Type} (f : α → Option β) :
    ∀ l : List α, (∀ x ∈ l, (f x).isSome = true) →
      (l.filterMap f).length = l.length := by
  intro l
  induction l with
  | nil => intro _; rfl
  | cons a t ih =>
    intro h
    cases hf : f a with
    | none =>
      exact absurd (h a (List.mem_cons_self _ _)) (by rw [hf]; simp)
    | some b =>
      simp only [List.filterMap_cons, hf, List.length_cons]
      rw [ih (fun x hx => h x (List.mem_cons_of_mem _ hx))]

/-- Filtering for group g then extracting options equals one filterMap
pass with radioOptOf. -/
theorem filterMap_radioOptOf (g : String) :
    ∀ L : List (Nat × Annot),
      (L.filter (fun pa =>
        get_full_annotation_field_id pa.2.chain == some g)).filterMap
          (fun pa => (radioOnValue pa.2).map fun v => (v, pa.2.rect)) =
      L.filterMap (radioOptOf g) := by
  intro L
  induction L with
  | nil => rfl
  | cons pa t ih =>
    rw [List.filter_cons, List.filterMap_cons]
    by_cases hb : (get_full_annotation_field_id pa.2.chain == some g) = true
    · have hopt : radioOptOf g pa =
          (radioOnValue pa.2).map fun v => (v, pa.2.rect) := by
        unfold radioOptOf
        rw [if_pos hb]
      simp only [hb, if_true, List.filterMap_cons, hopt, ih]
    · have hb2 : (get_full_annotation_field_id pa.2.chain == some g) = false := by
        rw [← Bool.not_eq_true]; exact hb
      have hopt : radioOptOf g pa = none := by
        unfold radioOptOf
        rw [if_neg hb]
      simp only [hb2, Bool.false_eq_true, if_false, hopt, ih]

/-- Filtering the values of a key-consistent dictionary by field id is
filtering the entries by key. -/
theorem filter_fieldid_map_snd (g : String) :
    ∀ l : List (String × FieldInfo),
      (∀ kv ∈ l, kv.2.field_id = kv.1) →
      (l.map Prod.snd).filter (fun f => f.field_id == g) =
        (l.filter (fun kv => kv.1 == g)).map Prod.snd := by
  intro l
  induction l with
  | nil => intro _; rfl
  | cons kv t ih =>
    intro h
    rw [List.map_cons, List.filter_cons, List.filter_cons]
    have hid := h kv (List.mem_cons_self _ _)
    by_cases hb : (kv.1 == g) = true
    · have hb2 : (kv.2.field_id == g) = true := by rw [hid]; exact hb
      simp only [hb, hb2, if_true, List.map_cons]
      rw [ih (fun kv2 h2 => h kv2 (List.mem_cons_of_mem _ h2))]
    · have hb1 : (kv.1 == g) = false := by rw [← Bool.not_eq_true]; exact hb
      have hb2 : (kv.2.field_id == g) = false := by rw [hid]; exact hb1
      simp only [hb1, hb2, Bool.false_eq_true, if_false]
      exact ih (fun kv2 h2 => h kv2 (List.mem_cons_of_mem _ h2))

/-- A key absent from the leaf dictionary yields no schema entry from
the located-leaf part. -/
theorem filter_fieldid_infos_nil (g : String) (l : List (String × FieldInfo))
    (hid : ∀ kv ∈ l, kv.2.field_id = kv.1)
    (h : List.lookup g l = none) :
    ((l.map Prod.snd).filter (fun f => f.page.isSome)).filter
      (fun f => f.field_id == g) = [] := by
  rw [List.filter_eq_nil_iff]
  intro f hf
  have hf2 : f ∈ l.map Prod.snd := (List.mem_filter.mp hf).1
  rcases List.mem_map.mp hf2 with ⟨kv, hkv, heq⟩
  have hgk := (lookup_eq_none_iff l g).mp h kv hkv
  rw [Bool.not_eq_true, ← heq, hid kv hkv]
  rw [beq_eq_false_iff_ne] at hgk ⊢
  exact fun hc => hgk hc.symm

/-- C5: in a document where the button annotations of one logical
radio-group name g (whose field definition is a button container, each
annotation carrying exactly one non-"/Off" appearance state) are
scanned, the extracted schema holds exactly one entry for g: a
radio_group entry whose radio_options lists one {value, rect} option
per annotation in page-scan order, paged at the first annotation's
page — never one entry per button. -/
theorem radio_group_roundtrip (doc : PdfDoc) (g : String) (frec : FieldRec)
    (hnodup : (doc.fields.map Prod.fst).Nodup)
    (hg : (g, frec) ∈ doc.fields)
    (hkids : frec.hasKids = true)
    (hbtn : frec.ft = some "/Btn")
    (hq : ∀ pa ∈ gAnnots doc g, (radioOnValue pa.2).isSome = true)
    (hne : gAnnots doc g ≠ []) :
    ∃ pa1 rest, gAnnots doc g = pa1 :: rest ∧
      (get_field_info doc).filter (fun f => f.field_id == g) =
        [⟨g, "radio_group", none, none, none, some (radioOpts doc g),
          some pa1.1, none⟩] ∧
      (radioOpts doc g).length = (gAnnots doc g).length := by
  have hprn : (possible_radio_names doc.fields).contains g = true :=
    contains_possible_radio_names doc.fields g frec hg hkids hbtn
  have hkall : ∀ kf ∈ doc.fields, kf.1 = g → kf.2.hasKids = true := by
    intro kf hkf hk
    rw [nodup_key_forall g frec doc.fields hnodup hg kf hkf hk]
    exact hkids
  have hinit : List.lookup g (initial_field_infos doc.fields) = none :=
    lookup_g_initial_aux g doc.fields [] hkall rfl
  have hq2 : ∀ pa ∈ pageAnnots doc,
      get_full_annotation_field_id pa.2.chain = some g →
      (radioOnValue pa.2).isSome = true := by
    intro pa hpa hfid
    exact hq pa (List.mem_filter.mpr ⟨hpa, by rw [hfid]; exact beq_self_eq_true _⟩)
  obtain ⟨pa1, rest, hgann⟩ : ∃ pa1 rest, gAnnots doc g = pa1 :: rest := by
    cases hga : gAnnots doc g with
    | nil => exact absurd hga hne
    | cons a t => exact ⟨a, t, rfl⟩
  have hfoldE : (pageAnnots doc).foldl (radioSpecStep g) none =
      some ⟨g, "radio_group", none, none, none,
        some ((pageAnnots doc).filterMap (radioOptOf g)), some pa1.1, none⟩ := by
    rw [radioSpec_foldl_none g (pageAnnots doc) hq2,
      show (pageAnnots doc).filter (fun pa =>
        get_full_annotation_field_id pa.2.chain == some g) = pa1 :: rest
        from hgann]
  obtain ⟨h1, h2⟩ := scan_radio_coupling (possible_radio_names doc.fields) g
    hprn (pageAnnots doc) ⟨initial_field_infos doc.fields, []⟩ none hinit rfl
  rw [hfoldE] at h2
  have hinv : ScanInv ((pageAnnots doc).foldl
      (scanStep (possible_radio_names doc.fields))
      ⟨initial_field_infos doc.fields, []⟩) := by
    apply scan_foldl_inv
    constructor
    · exact initial_field_infos_inv doc.fields
    · intro kv hkv; simp at hkv
  have hA : ((((pageAnnots doc).foldl
      (scanStep (possible_radio_names doc.fields))
      ⟨initial_field_infos doc.fields, []⟩).infos.map Prod.snd).filter
        (fun f => f.page.isSome)).filter (fun f => f.field_id == g) = [] :=
    filter_fieldid_infos_nil g _ (fun kv hkv => (hinv.1 kv hkv).1) h1
  have hB : (((pageAnnots doc).foldl
      (scanStep (possible_radio_names doc.fields))
      ⟨initial_field_infos doc.fields, []⟩).radios.map Prod.snd).filter
        (fun f => f.field_id == g) =
      [⟨g, "radio_group", none, none, none,
        some ((pageAnnots doc).filterMap (radioOptOf g)), some pa1.1, none⟩] := by
    rw [filter_fieldid_map_snd g _ (fun kv hkv => (hinv.2 kv hkv).1), h2]
    rfl
  have hout : get_field_info doc = List.insertionSort fieldLE
      (((((pageAnnots doc).foldl
          (scanStep (possible_radio_names doc.fields))
          ⟨initial_field_infos doc.fields, []⟩).infos.map Prod.snd).filter
            fun f => f.page.isSome) ++
        ((pageAnnots doc).foldl
          (scanStep (possible_radio_names doc.fields))
          ⟨initial_field_infos doc.fields, []⟩).radios.map Prod.snd) := rfl
  have hp : List.Perm ((get_field_info doc).filter (fun f => f.field_id == g))
      [⟨g, "radio_group", none, none, none,
        some ((pageAnnots doc).filterMap (radioOptOf g)), some pa1.1, none⟩] := by
    have hperm := (List.perm_insertionSort fieldLE
      (((((pageAnnots doc).foldl
          (scanStep (possible_radio_names doc.fields))
          ⟨initial_field_infos doc.fields, []⟩).infos.map Prod.snd).filter
            fun f => f.page.isSome) ++
        ((pageAnnots doc).foldl
          (scanStep (possible_radio_names doc.fields))
          ⟨initial_field_infos doc.fields, []⟩).radios.map Prod.snd)).filter
        (fun f => f.field_id == g)
    rw [List.filter_append, hA, hB, List.nil_append] at hperm
    rw [hout]
    exact hperm
  have hfil := List.perm_singleton.mp hp
  have hro : radioOpts doc g = (pageAnnots doc).filterMap (radioOptOf g) :=
    filterMap_radioOptOf g (pageAnnots doc)
  have hlen : (radioOpts doc g).length = (gAnnots doc g).length :=
    length_filterMap_of_isSome _ (gAnnots doc g) (fun pa hpa => by
      have hs := hq pa hpa
      cases hrov : radioOnValue pa.2 with
      | none => rw [hrov] at hs; simp at hs
      | some v => rfl)
  refine ⟨pa1, rest, hgann, ?_, hlen⟩
  rw [hro]
  exact hfil

/-- A two-button gender group round-trips into one radio_group entry
with two options. -/
theorem radio_group_roundtrip_witness :
    (radioDoc.fields.map Prod.fst).Nodup ∧
    ("gender", (⟨some "/Btn", true, [], []⟩ : FieldRec)) ∈ radioDoc.fields ∧
    gAnnots radioDoc "gender" ≠ [] ∧
    (∃ pa1 rest, gAnnots radioDoc "gender" = pa1 :: rest ∧
      (get_field_info radioDoc).filter (fun f => f.field_id == "gender") =
        [⟨"gender", "radio_group", none, none, none,
          some (radioOpts radioDoc "gender"), some pa1.1, none⟩] ∧
      (radioOpts radioDoc "gender").length =
        (gAnnots radioDoc "gender").length) :=
  ⟨by decide, by decide, by decide,
    radio_group_roundtrip radioDoc "gender" ⟨some "/Btn", true, [], []⟩
      (by decide) (by decide) (by decide) (by decide) (by decide) (by decide)⟩
